import Mathlib

/-!
Verification development for the hotel central air-conditioning control core
(scheduler, room thermal/throttle model, billing, check-in/checkout).

The definitions below are a shallow embedding of the Python sources:
  backend/application/scheduler.py     (Scheduler, ServiceObject, victim rules)
  backend/domain/room.py               (Room, throttle and auto-restart rules)
  backend/application/billing_service.py (detail records, bill aggregation)
  backend/application/checkin_service.py / checkout_service.py
  backend/application/time_manager.py  (auto-restart check over timer sets)

Modelling conventions:
  - Wall-clock timestamps and temperatures/fees (Python datetime / float) are
    rationals; machine integers are Nat (all codebase integers are counters
    that never go negative along the modelled operations).
  - Python dicts keyed by room_id (the in-memory repository and the SQLite
    tables keyed by primary key room_id) are association lists with
    insertion-order iteration: writing an existing key replaces it in place,
    a new key is appended.  This matches dict semantics exactly.
  - uuid4 identifiers are drawn from a monotone counter in the state.
  - The DETAIL/ACCOMMODATION timer fee mirroring of TimeManager is not
    replayed inside billing close: records carry the fee_value they were
    last stored with, which is the only thing aggregation reads.
-/

namespace HotelAC

/-- SPEED_PRIORITY from scheduler.py: HIGH=3, MID=2, LOW=1, unknown speeds 0
(the behaviour of dict.get(speed, 0)). -/
def speedPriority (speed : String) : Nat :=
  if speed = "HIGH" then 3
  else if speed = "MID" then 2
  else if speed = "LOW" then 1
  else 0

/-- compare_speed from scheduler.py: 1 if the first speed has strictly higher
priority, -1 if strictly lower, 0 otherwise. -/
def compareSpeed (speedA speedB : String) : Int :=
  if speedPriority speedA > speedPriority speedB then 1
  else if speedPriority speedA < speedPriority speedB then -1
  else 0

/-- ServiceObject dataclass from scheduler.py. -/
structure ServiceObject where
  room_id : String
  speed : String
  started_at : Option ℚ := none
  served_seconds : Nat := 0
  wait_seconds : Nat := 0
  total_waited_seconds : Nat := 0
  priority_token : Nat := 0
  time_slice_enforced : Bool := false
  status : String := "WAITING"
  current_fee : ℚ := 0
  deriving DecidableEq, Repr

/-- Python max(xs, key=key) on a non-empty list given as head and tail:
the fold keeps the earliest element whose key is maximal, because the
accumulator is replaced only on strictly greater keys. -/
def pyMax (key : ServiceObject → Nat) (x : ServiceObject) (xs : List ServiceObject) :
    ServiceObject :=
  xs.foldl (fun acc y => if key y > key acc then y else acc) x

/-- select_victim_by_rules from scheduler.py. -/
def selectVictimByRules (services : List ServiceObject) (newSpeed : String) :
    Option ServiceObject :=
  let slowerItems := services.filter fun obj => decide (compareSpeed obj.speed newSpeed < 0)
  match slowerItems with
  | [] => none
  | [x] => some x
  | x :: xs =>
    if xs.all fun obj => obj.speed = x.speed then
      some (pyMax (fun obj => obj.served_seconds) x xs)
    else
      let minPriority := (xs.map fun obj => speedPriority obj.speed).foldl
        min (speedPriority x.speed)
      let candidates := (x :: xs).filter fun obj =>
        decide (speedPriority obj.speed = minPriority)
      match candidates with
      | [] => none
      | c :: cs => some (pyMax (fun obj => obj.served_seconds) c cs)

/-- RoomStatus enum from domain/room.py. -/
inductive RoomStatus where
  | VACANT
  | OCCUPIED
  deriving DecidableEq, Repr

/-- Room dataclass from domain/room.py (the metadata dict is not modelled;
powered_on is an attribute set dynamically by use_ac_service.py). -/
structure Room where
  room_id : String
  status : RoomStatus := RoomStatus.VACANT
  current_temp : ℚ := 25
  target_temp : ℚ := 25
  initial_temp : ℚ := 25
  hvac_mode : String := "cool"
  speed : String := "MID"
  is_serving : Bool := false
  ac_enabled : Bool := false
  total_fee : ℚ := 0
  rate_per_night : ℚ := 300
  last_temp_change_timestamp : Option ℚ := none
  pending_target_temp : Option ℚ := none
  manual_powered_off : Bool := false
  powered_on : Bool := false
  deriving DecidableEq, Repr

/-- Room.request_target_temp: throttled target-temperature change.  Returns the
updated room and True when the change took effect immediately, False when it
was only buffered as pending.  Timestamps are in seconds; the delta is
converted to milliseconds exactly as in the source. -/
def requestTargetTemp (room : Room) (target : ℚ) (now : ℚ) (throttleMs : ℚ) :
    Room × Bool :=
  let room := { room with pending_target_temp := none }
  match room.last_temp_change_timestamp with
  | some last =>
    if (now - last) * 1000 < throttleMs then
      ({ room with pending_target_temp := some target }, false)
    else
      ({ room with target_temp := target,
                   last_temp_change_timestamp := some now }, true)
  | none =>
    ({ room with target_temp := target,
                 last_temp_change_timestamp := some now }, true)

/-- Room.apply_pending_target: at the end of the throttle window the last
buffered change is written into target_temp. -/
def applyPendingTarget (room : Room) (now : ℚ) (throttleMs : ℚ) : Room :=
  match room.pending_target_temp with
  | none => room
  | some pending =>
    match room.last_temp_change_timestamp with
    | none =>
      { room with target_temp := pending, pending_target_temp := none,
                  last_temp_change_timestamp := some now }
    | some last =>
      if (now - last) * 1000 ≥ throttleMs then
        { room with target_temp := pending, pending_target_temp := none,
                    last_temp_change_timestamp := some now }
      else room

/-- Room.needs_auto_restart: deviation from target at least the threshold. -/
def needsAutoRestart (room : Room) (threshold : ℚ) : Bool :=
  decide (|room.current_temp - room.target_temp| ≥ threshold)

/-- ACDetailRecord from domain/detail_record.py, record_id drawn from the
state's uuid counter. -/
structure DetailRecord where
  record_id : Nat
  room_id : String
  speed : String
  started_at : ℚ
  ended_at : Option ℚ := none
  logic_start_seconds : Option Nat := none
  logic_end_seconds : Option Nat := none
  rate_per_min : ℚ := 0
  fee_value : ℚ := 0
  timer_id : Option Nat := none
  deriving DecidableEq, Repr

/-- ACBill from domain/bill.py. -/
structure ACBill where
  bill_id : Nat
  room_id : String
  period_start : ℚ
  period_end : ℚ
  total_fee : ℚ := 0
  details : List DetailRecord := []
  deriving DecidableEq, Repr

/-- ACBill.add_record: append the record and accumulate its fee. -/
def addRecord (bill : ACBill) (record : DetailRecord) : ACBill :=
  { bill with details := bill.details ++ [record],
              total_fee := bill.total_fee + record.fee_value }

/-- An accommodation order row (checkin_service.py / sqlite_repo.py). -/
structure AccOrder where
  order_id : Nat
  room_id : String
  customer_name : String
  guest_count : Nat
  nights : Nat
  deposit : ℚ
  check_in_at : ℚ
  timer_id : Option Nat
  deriving DecidableEq, Repr

/-- An accommodation bill row produced at checkout. -/
structure AccBill where
  bill_id : Nat
  room_id : String
  total_fee : ℚ
  created_at : ℚ
  deriving DecidableEq, Repr

/-- An ACCOMMODATION timer of TimeManager, reduced to the fields checkout
reads (elapsed seconds; cancelled timers are removed from the map). -/
structure AccTimer where
  timer_id : Nat
  room_id : String
  elapsed_seconds : Nat
  deriving DecidableEq, Repr

/-- The configuration values resolved in Scheduler.__post_init__ and the
services (config defaults from app_config access paths). -/
structure Config where
  maxConcurrent : Nat := 3
  timeSliceSeconds : Nat := 60
  throttleMs : ℚ := 1000
  autoRestartThreshold : ℚ := 1
  defaultTarget : ℚ := 25
  ratePerNight : ℚ := 300
  pricePerUnit : ℚ := 1
  rateHigh : ℚ := 1
  rateMid : ℚ := 1/2
  rateLow : ℚ := 1/3
  deriving DecidableEq, Repr

/-- BillingService._rate_for_speed via rate_map (unknown speeds fall back to
the MID rate). -/
def rateForSpeed (cfg : Config) (speed : String) : ℚ :=
  if speed = "HIGH" then cfg.rateHigh
  else if speed = "MID" then cfg.rateMid
  else if speed = "LOW" then cfg.rateLow
  else cfg.rateMid

/-- The persistent state shared by the scheduler, billing and front-desk
services: the repository tables plus the accommodation timers of
TimeManager that checkout consults.  Dict-backed tables keep insertion
order. -/
structure SysState where
  services : List ServiceObject := []
  waits : List ServiceObject := []
  rooms : List Room := []
  details : List DetailRecord := []
  acBills : List ACBill := []
  accOrders : List AccOrder := []
  accBills : List AccBill := []
  accTimers : List AccTimer := []
  nextId : Nat := 0
  deriving DecidableEq, Repr

/-- dict[key] = value on a room_id-keyed table: replace in place or append. -/
def upsertService (entry : ServiceObject) : List ServiceObject → List ServiceObject
  | [] => [entry]
  | x :: xs =>
    if x.room_id = entry.room_id then entry :: xs else x :: upsertService entry xs

/-- dict.pop(key) / DELETE by primary key on a service-object table. -/
def removeService (rid : String) (l : List ServiceObject) : List ServiceObject :=
  l.filter fun x => decide (x.room_id ≠ rid)

/-- Linear lookup by room_id (Scheduler._get_service_entry). -/
def findService (rid : String) (l : List ServiceObject) : Option ServiceObject :=
  l.find? fun x => decide (x.room_id = rid)

/-- dict[key] = value on the rooms table. -/
def upsertRoom (room : Room) : List Room → List Room
  | [] => [room]
  | x :: xs =>
    if x.room_id = room.room_id then room :: xs else x :: upsertRoom room xs

/-- Repository get_room. -/
def findRoom (rid : String) (l : List Room) : Option Room :=
  l.find? fun x => decide (x.room_id = rid)

/-- update_detail_record: replace the row with the same record_id. -/
def updateDetailRecord (record : DetailRecord) (l : List DetailRecord) :
    List DetailRecord :=
  l.map fun r => if r.record_id = record.record_id then record else r

/-- get_active_detail_record: newest record of the room with ended_at unset
(the in-memory repository scans the room's history backwards). -/
def getActiveDetailRecord (rid : String) (details : List DetailRecord) :
    Option DetailRecord :=
  ((details.filter fun r => decide (r.room_id = rid)).reverse).find?
    fun r => r.ended_at.isNone

/-- get_latest_accommodation_order: the order of the room with the greatest
check_in_at (ORDER BY check_in_at DESC ... first). -/
def latestAccOrder (rid : String) (orders : List AccOrder) : Option AccOrder :=
  match orders.filter fun o => decide (o.room_id = rid) with
  | [] => none
  | o :: os =>
    some (os.foldl (fun acc y => if y.check_in_at > acc.check_in_at then y else acc) o)

/-- BillingService._accommodation_elapsed_seconds: elapsed seconds of the
accommodation timer attached to the room's latest order, if any. -/
def accommodationElapsed (sys : SysState) (rid : String) : Option Nat :=
  match latestAccOrder rid sys.accOrders with
  | none => none
  | some o =>
    match o.timer_id with
    | none => none
    | some tid =>
      (sys.accTimers.find? fun t => decide (t.timer_id = tid)).map
        fun t => t.elapsed_seconds

/-- BillingService.close_current_detail_record.  No DETAIL timer is attached
in the modelled runs, so the record keeps its stored fee_value; the logical
end offset comes from the accommodation timer when one is live. -/
def closeDetailSegment (sys : SysState) (rid : String) (now : ℚ) : SysState :=
  match getActiveDetailRecord rid sys.details with
  | none => sys
  | some record =>
    let record := { record with
      logic_end_seconds := accommodationElapsed sys rid,
      ended_at := some now }
    { sys with details := updateDetailRecord record sys.details }

/-- BillingService.start_new_detail_record: close any open segment, then
persist a fresh open record at the configured rate. -/
def startDetailSegment (cfg : Config) (sys : SysState) (rid : String)
    (speed : String) (now : ℚ) : SysState :=
  let sys := closeDetailSegment sys rid now
  let record : DetailRecord := {
    record_id := sys.nextId,
    room_id := rid,
    speed := speed,
    started_at := now,
    rate_per_min := rateForSpeed cfg speed,
    fee_value := 0,
    logic_start_seconds := accommodationElapsed sys rid,
    timer_id := none }
  { sys with details := sys.details ++ [record], nextId := sys.nextId + 1 }

/-- The room update performed by Scheduler.assign_service: mark the room as
serving at the service object's speed. -/
def setRoomAssigned (rid : String) (speed : String) (sys : SysState) : SysState :=
  match findRoom rid sys.rooms with
  | none => sys
  | some room =>
    { sys with rooms := upsertRoom { room with is_serving := true, speed := speed } sys.rooms }

/-- The room update performed on release/cancel/enqueue: clear is_serving. -/
def setRoomNotServing (rid : String) (sys : SysState) : SysState :=
  match findRoom rid sys.rooms with
  | none => sys
  | some room =>
    { sys with rooms := upsertRoom { room with is_serving := false } sys.rooms }

/-- Scheduler.assign_service. -/
def assignService (cfg : Config) (now : ℚ) (service : ServiceObject)
    (sys : SysState) : SysState :=
  let service := { service with
    status := "SERVING",
    started_at := some (service.started_at.getD now),
    wait_seconds := 0,
    priority_token := 0,
    time_slice_enforced := false }
  let sys := { sys with services := upsertService service sys.services }
  let sys := setRoomAssigned service.room_id service.speed sys
  startDetailSegment cfg sys service.room_id service.speed now

/-- Scheduler._enqueue_waiting. -/
def enqueueWaiting (cfg : Config) (service : ServiceObject) (enforced : Bool)
    (sys : SysState) : SysState :=
  let service := { service with
    time_slice_enforced := enforced,
    wait_seconds := cfg.timeSliceSeconds,
    total_waited_seconds := 0,
    status := "WAITING" }
  let sys := { sys with waits := upsertService service sys.waits }
  setRoomNotServing service.room_id sys

/-- Scheduler._remove_wait_entry. -/
def removeWait (rid : String) (sys : SysState) : SysState :=
  { sys with waits := removeService rid sys.waits }

/-- ServiceObject priority key used by Scheduler._pop_highest_priority. -/
def prioTriple (obj : ServiceObject) : Nat × Nat × Nat :=
  (speedPriority obj.speed, obj.priority_token, obj.total_waited_seconds)

/-- Lexicographic strict order on the priority triples (Python tuple lt). -/
def tripleLt (a b : Nat × Nat × Nat) : Bool :=
  a.1 < b.1 ∨ (a.1 = b.1 ∧ (a.2.1 < b.2.1 ∨ (a.2.1 = b.2.1 ∧ a.2.2 < b.2.2)))

/-- Python max(entries, key=priority_key) on a non-empty wait list. -/
def pyMaxPrio (x : ServiceObject) (xs : List ServiceObject) : ServiceObject :=
  xs.foldl (fun acc y => if tripleLt (prioTriple acc) (prioTriple y) then y else acc) x

/-- Scheduler._fill_capacity_if_possible, with the while loop unrolled on a
fuel argument: every iteration removes the popped entry from the waiting
queue, so the loop runs at most (initial waiting-queue length) times and
fillCapacity below supplies exactly that fuel. -/
def fillCapacityAux (cfg : Config) (now : ℚ) : Nat → SysState → SysState
  | 0, sys => sys
  | Nat.succ fuel, sys =>
    if sys.services.length ≥ cfg.maxConcurrent then sys
    else
      match sys.waits with
      | [] => sys
      | w :: ws =>
        let next := pyMaxPrio w ws
        let sys := removeWait next.room_id sys
        let sys := assignService cfg now next sys
        fillCapacityAux cfg now fuel sys

/-- Scheduler._fill_capacity_if_possible. -/
def fillCapacity (cfg : Config) (now : ℚ) (sys : SysState) : SysState :=
  fillCapacityAux cfg now sys.waits.length sys

/-- Scheduler.release_service. -/
def releaseService (cfg : Config) (now : ℚ) (rid : String) (sys : SysState) :
    SysState :=
  match findService rid sys.services with
  | none => sys
  | some _ =>
    let sys := { sys with services := removeService rid sys.services }
    let sys := closeDetailSegment sys rid now
    let sys := setRoomNotServing rid sys
    fillCapacity cfg now sys

/-- Scheduler.cancel_request. -/
def cancelRequest (_cfg : Config) (now : ℚ) (rid : String) (sys : SysState) :
    SysState :=
  let sys :=
    match findService rid sys.services with
    | some _ => { sys with services := removeService rid sys.services }
    | none => sys
  let sys := removeWait rid sys
  let sys := closeDetailSegment sys rid now
  setRoomNotServing rid sys

/-- Scheduler._remove_existing. -/
def removeExisting (cfg : Config) (now : ℚ) (rid : String) (sys : SysState) :
    SysState :=
  let sys :=
    if (findService rid sys.services).isSome then releaseService cfg now rid sys
    else sys
  removeWait rid sys

/-- Scheduler._boost_waiting_priority. -/
def boostWaitingPriority (speed : String) (sys : SysState) : SysState :=
  { sys with waits := sys.waits.map fun s =>
      if s.speed = speed then { s with priority_token := s.priority_token + 1 } else s }

/-- Scheduler.preempt. -/
def preempt (cfg : Config) (now : ℚ) (victim newService : ServiceObject)
    (sys : SysState) : SysState :=
  let sys := { sys with services := removeService victim.room_id sys.services }
  let sys := closeDetailSegment sys victim.room_id now
  let sys := enqueueWaiting cfg victim false sys
  let sys := boostWaitingPriority newService.speed sys
  assignService cfg now newService sys

/-- Scheduler.on_new_request. -/
def onNewRequest (cfg : Config) (now : ℚ) (rid : String) (speed : String)
    (sys : SysState) : SysState :=
  let sys := removeExisting cfg now rid sys
  let service : ServiceObject := { room_id := rid, speed := speed }
  if sys.services.length < cfg.maxConcurrent then assignService cfg now service sys
  else
    match selectVictimByRules sys.services speed with
    | some victim => preempt cfg now victim service sys
    | none =>
      let cmpResults := sys.services.map fun item => compareSpeed speed item.speed
      let highestCmp : Int :=
        match cmpResults with
        | [] => -1
        | c :: cs => cs.foldl max c
      if highestCmp = 0 then enqueueWaiting cfg service true sys
      else enqueueWaiting cfg service false sys

/-- Scheduler._longest_served. -/
def longestServed : List ServiceObject → Option ServiceObject
  | [] => none
  | x :: xs => some (pyMax (fun obj => obj.served_seconds) x xs)

/-- Scheduler._handle_time_slice_expiry: rotate the longest-served serving
object out in favour of the expired waiting object.  Note that the source
stores the victim into the waiting queue directly (not through
_enqueue_waiting), so the victim keeps its wait_seconds field as it was. -/
def handleTimeSliceExpiry (cfg : Config) (now : ℚ) (waitingService : ServiceObject)
    (sys : SysState) : SysState :=
  match longestServed sys.services with
  | none => sys
  | some victim =>
    let sys := { sys with services := removeService victim.room_id sys.services }
    let sys := closeDetailSegment sys victim.room_id now
    let victim := { victim with time_slice_enforced := true, status := "WAITING" }
    let sys := { sys with waits := upsertService victim sys.waits }
    let sys := removeWait waitingService.room_id sys
    let waitingService := { waitingService with time_slice_enforced := false }
    assignService cfg now waitingService sys

/-- Scheduler._handle_auto_restart: one pass over the rooms, re-requesting
service for occupied rooms that are in no queue and deviate from target by
at least the threshold.  The queue snapshots are taken once before the
loop, as in the source; the second component collects the room_ids for
which on_new_request was invoked. -/
def handleAutoRestartSched (cfg : Config) (now : ℚ) (sys : SysState) :
    SysState × List String :=
  let activeRooms := sys.services.map fun s => s.room_id
  let waitingRooms := sys.waits.map fun s => s.room_id
  (sys.rooms.map fun r => r.room_id).foldl
    (fun acc rid =>
      match findRoom rid acc.1.rooms with
      | none => acc
      | some room =>
        if room.status = RoomStatus.VACANT then acc
        else if activeRooms.contains rid || waitingRooms.contains rid then acc
        else if needsAutoRestart room cfg.autoRestartThreshold then
          (onNewRequest cfg now rid (if room.speed = "" then "MID" else room.speed) acc.1,
           acc.2 ++ [rid])
        else acc)
    (sys, [])

/-- Timer kinds of TimeManager. -/
inductive TimerKind where
  | SERVICE
  | WAIT
  | DETAIL
  | ACCOMMODATION
  deriving DecidableEq, Repr

/-- TimerState from time_manager.py. -/
structure TimerState where
  timer_id : Nat
  kind : TimerKind
  room_id : String
  speed : Option String := none
  elapsed_seconds : Nat := 0
  remaining_seconds : Nat := 0
  current_fee : ℚ := 0
  time_slice_enforced : Bool := false
  active : Bool := true
  deriving DecidableEq, Repr

/-- TimeManager._get_active_service_rooms. -/
def tmActiveServiceRooms (timers : List TimerState) : List String :=
  (timers.filter fun t => decide (t.kind = TimerKind.SERVICE) && t.active).map
    fun t => t.room_id

/-- TimeManager._get_active_wait_rooms. -/
def tmActiveWaitRooms (timers : List TimerState) : List String :=
  (timers.filter fun t => decide (t.kind = TimerKind.WAIT) && t.active).map
    fun t => t.room_id

/-- TimeManager._check_auto_restart: the room_ids for which an
AUTO_RESTART_NEEDED event is published during one tick. -/
def tmCheckAutoRestart (threshold : ℚ) (timers : List TimerState)
    (rooms : List Room) : List String :=
  let activeRooms := tmActiveServiceRooms timers
  let waitingRooms := tmActiveWaitRooms timers
  rooms.foldl
    (fun acc room =>
      if room.status = RoomStatus.VACANT then acc
      else if room.manual_powered_off then acc
      else if activeRooms.contains room.room_id ||
              waitingRooms.contains room.room_id then acc
      else if needsAutoRestart room threshold then acc ++ [room.room_id]
      else acc)
    []

/-- list_completed_detail_records: the room's records with ended_at set, in
insertion order. -/
def listCompletedDetails (rid : String) (details : List DetailRecord) :
    List DetailRecord :=
  details.filter fun r => decide (r.room_id = rid) && r.ended_at.isSome

/-- BillingService.aggregate_records_to_bill: closed records of the room,
restricted to the latest stay when an accommodation order exists; None when
nothing remains.  Returns the updated state (the bill is persisted) and the
bill. -/
def aggregateRecordsToBill (sys : SysState) (rid : String) :
    SysState × Option ACBill :=
  let completed := listCompletedDetails rid sys.details
  match completed with
  | [] => (sys, none)
  | _ :: _ =>
    let completed : List DetailRecord :=
      match latestAccOrder rid sys.accOrders with
      | some order => completed.filter fun r => decide (r.started_at ≥ order.check_in_at)
      | none => completed
    match completed with
    | [] => (sys, none)
    | c :: cs =>
      let periodStart := (cs.map fun r => r.started_at).foldl min c.started_at
      let periodEnd : ℚ :=
        match (c :: cs).filterMap (fun r => r.ended_at) with
        | [] => c.started_at
        | e :: es => es.foldl max e
      let bill : ACBill := {
        bill_id := sys.nextId,
        room_id := rid,
        period_start := periodStart,
        period_end := periodEnd,
        total_fee := 0,
        details := [] }
      let bill := (c :: cs).foldl addRecord bill
      ({ sys with acBills := sys.acBills ++ [bill], nextId := sys.nextId + 1 },
       some bill)

/-- UseACService._ensure_room: fetch the room, creating it with configured
defaults when absent. -/
def ensureRoom (cfg : Config) (rid : String) (sys : SysState) : Room × SysState :=
  match findRoom rid sys.rooms with
  | some room => (room, sys)
  | none =>
    let room : Room := {
      room_id := rid,
      current_temp := cfg.defaultTarget,
      target_temp := cfg.defaultTarget,
      initial_temp := cfg.defaultTarget,
      rate_per_night := cfg.ratePerNight }
    (room, { sys with rooms := sys.rooms ++ [room] })

/-- UseACService.power_off.  The call into
scheduler.time_manager.clear_auto_restart_flag is modelled from the spec:
the spec keeps no auto-restart flag outside the room fields, so clearing it
is a no-op on this state. -/
def powerOff (cfg : Config) (now : ℚ) (rid : String) (sys : SysState) : SysState :=
  let (room, sys) := ensureRoom cfg rid sys
  let room := { room with
    is_serving := false,
    status := RoomStatus.OCCUPIED,
    manual_powered_off := true,
    powered_on := false }
  let sys := closeDetailSegment sys rid now
  let sys := { sys with rooms := upsertRoom room sys.rooms }
  cancelRequest cfg now rid sys

/-- CheckInService.check_in.  Registers the stay: cancels any scheduling for
the room, closes the open detail segment, re-initialises the room as
occupied, creates a fresh accommodation timer and appends the order.
Returns the updated state and the created order. -/
def checkIn (cfg : Config) (now : ℚ) (rid custName : String) (guestCount : Nat)
    (checkInAt : ℚ) (deposit : ℚ) (sys : SysState) : SysState × AccOrder :=
  let (room, sys) :=
    match findRoom rid sys.rooms with
    | some room => (room, sys)
    | none =>
      let room : Room := {
        room_id := rid,
        current_temp := cfg.defaultTarget,
        target_temp := cfg.defaultTarget,
        initial_temp := cfg.defaultTarget }
      (room, { sys with rooms := sys.rooms ++ [room] })
  let sys := cancelRequest cfg now rid sys
  let sys := closeDetailSegment sys rid now
  let room := { room with
    initial_temp := room.current_temp,
    speed := "MID",
    total_fee := 0,
    is_serving := false,
    status := RoomStatus.OCCUPIED }
  let sys := { sys with rooms := upsertRoom room sys.rooms }
  let timerId := sys.nextId
  let newTimer : AccTimer := { timer_id := timerId, room_id := rid, elapsed_seconds := 0 }
  let remainingTimers : List AccTimer := sys.accTimers.filter fun t => decide (t.room_id ≠ rid)
  let sys := { sys with
    accTimers := remainingTimers ++ [newTimer],
    nextId := sys.nextId + 1 }
  let order : AccOrder := {
    order_id := sys.nextId,
    room_id := rid,
    customer_name := custName,
    guest_count := guestCount,
    nights := 1,
    deposit := deposit,
    check_in_at := checkInAt,
    timer_id := some timerId }
  ({ sys with accOrders := sys.accOrders ++ [order], nextId := sys.nextId + 1 },
   order)

/-- The payload check_out returns on success (reduced to the billed figures). -/
structure CheckOutResult where
  room_id : String
  roomFee : ℚ
  actualNights : Nat
  deposit : ℚ
  accommodationSeconds : Nat
  acBill : Option ACBill
  totalDue : ℚ
  deriving DecidableEq, Repr

/-- CheckOutService.check_out.  Mirrors the source order of effects: the AC
is powered off and the wait entry removed before the accommodation order is
looked up, so those effects happen even when the lookup fails.  The first
component is the state after the call (exceptions in the source leave all
repository writes already made in place). -/
def checkOut (cfg : Config) (now : ℚ) (rid : String) (sys : SysState) :
    SysState × Except String CheckOutResult :=
  match findRoom rid sys.rooms with
  | none => (sys, Except.error "Room not found")
  | some _ =>
    let sys := powerOff cfg now rid sys
    let sys := removeWait rid sys
    match latestAccOrder rid sys.accOrders with
    | none => (sys, Except.error "Room has no active accommodation order.")
    | some order =>
      let accData : Nat × SysState :=
        match order.timer_id with
        | none => (0, sys)
        | some tid =>
          match sys.accTimers.find? fun t => decide (t.timer_id = tid) with
          | none => (0, sys)
          | some t =>
            (t.elapsed_seconds,
             { sys with accTimers := sys.accTimers.filter fun u => decide (u.timer_id ≠ tid) })
      let accSeconds := accData.1
      let sys := accData.2
      let actualNights :=
        if accSeconds > 0 then max 1 ((accSeconds + 86399) / 86400) else order.nights
      let roomFee := (actualNights : ℚ) * cfg.ratePerNight
      let aggData := aggregateRecordsToBill sys rid
      let sys := aggData.1
      let acBill := aggData.2
      let acFee := match acBill with | some b => b.total_fee | none => 0
      let accBill : AccBill := {
        bill_id := sys.nextId,
        room_id := rid,
        total_fee := roomFee,
        created_at := now }
      let sys := { sys with accBills := sys.accBills ++ [accBill],
                            nextId := sys.nextId + 1 }
      let totalDue := roomFee + acFee - order.deposit
      let sys :=
        match findRoom rid sys.rooms with
        | none => sys
        | some room =>
          { sys with rooms := upsertRoom { room with
              status := RoomStatus.VACANT,
              is_serving := false,
              speed := "MID",
              target_temp := cfg.defaultTarget,
              total_fee := 0 } sys.rooms }
      (sys,
       Except.ok {
         room_id := rid,
         roomFee := roomFee,
         actualNights := actualNights,
         deposit := order.deposit,
         accommodationSeconds := accSeconds,
         acBill := acBill,
         totalDue := totalDue })

/-- A serving object as produced by assign_service after five ticks of
service (wait_seconds was reset to 0 on assignment). -/
def demoV : ServiceObject :=
  { room_id := "V", speed := "MID", status := "SERVING",
    served_seconds := 5, wait_seconds := 0 }

/-- A waiting object whose enforced wait countdown has expired. -/
def demoW : ServiceObject :=
  { room_id := "W", speed := "MID", status := "WAITING",
    wait_seconds := 0, time_slice_enforced := true }

/-- A one-slot scheduler state about to rotate: demoV serving, demoW
waiting with an expired enforced countdown. -/
def demoRotState : SysState :=
  { services := [demoV], waits := [demoW] }

/-- A full three-slot scheduler: rooms A and B serve at HIGH, room r at
MID, and room N waits at HIGH.  Used to exercise on_new_request for a room
that is already serving. -/
def demoFullState : SysState :=
  { services :=
      [{ room_id := "A", speed := "HIGH", status := "SERVING" },
       { room_id := "B", speed := "HIGH", status := "SERVING" },
       { room_id := "r", speed := "MID", status := "SERVING" }],
    waits := [{ room_id := "N", speed := "HIGH", status := "WAITING" }] }

/-- A closed detail record from a previous stay of room R. -/
def demoRecOld : DetailRecord :=
  { record_id := 1, room_id := "R", speed := "MID", started_at := 10,
    ended_at := some 20, rate_per_min := 1, fee_value := 7 }

/-- A closed detail record inside the current stay of room R. -/
def demoRecMid : DetailRecord :=
  { record_id := 2, room_id := "R", speed := "MID", started_at := 100,
    ended_at := some 160, rate_per_min := 1, fee_value := 5 }

/-- A later closed detail record inside the current stay of room R. -/
def demoRecLate : DetailRecord :=
  { record_id := 3, room_id := "R", speed := "HIGH", started_at := 200,
    ended_at := some 230, rate_per_min := 1, fee_value := 3 }

/-- The accommodation order of room R's current stay, checked in at 50. -/
def demoOrder : AccOrder :=
  { order_id := 4, room_id := "R", customer_name := "G", guest_count := 1,
    nights := 1, deposit := 0, check_in_at := 50, timer_id := none }

/-- A billing state with one old-stay record and two current-stay records. -/
def demoBillState : SysState :=
  { details := [demoRecOld, demoRecMid, demoRecLate],
    accOrders := [demoOrder], nextId := 9 }

/-- A state with one occupied room and no accommodation orders. -/
def demoOccState : SysState :=
  { rooms :=
      [{ room_id := "R",
         status := RoomStatus.OCCUPIED,
         current_temp := 26,
         target_temp := 24 }] }

/-- The room fields consulted by the auto-restart stages (identity, status,
temperatures, manual flag).  The scheduler operations reached from the
auto-restart loop only ever rewrite is_serving and speed, so this
projection of the rooms table is invariant across them. -/
def stableProj (room : Room) : String × RoomStatus × ℚ × ℚ × Bool :=
  (room.room_id, room.status, room.current_temp, room.target_temp,
   room.manual_powered_off)

/-- An occupied, manually powered-off room that deviates from target by
more than the default threshold, with empty queues. -/
def demoManualState : SysState :=
  { rooms :=
      [{ room_id := "M",
         status := RoomStatus.OCCUPIED,
         current_temp := 30,
         target_temp := 25,
         manual_powered_off := true }] }

/-- The firing condition of one iteration of Scheduler._handle_auto_restart,
expressed on the stable projection of the room found in the reference rooms
table: a room is found, it is not VACANT, its id is in neither queue
snapshot, and the temperature gap reaches the threshold.  Note the absence
of a manual_powered_off condition, mirroring the source. -/
def schedFireCond (cfg : Config) (A W : List String) (rooms0 : List Room)
    (rid : String) : Prop :=
  ∃ p, (findRoom rid rooms0).map stableProj = some p ∧
    p.2.1 ≠ RoomStatus.VACANT ∧
    (A.contains rid || W.contains rid) = false ∧
    |p.2.2.1 - p.2.2.2.1| ≥ cfg.autoRestartThreshold

/-- States reachable from an empty scheduler through the scheduler
operations: new requests, releases, cancellations, time-slice rotation for
a queued waiting entry, capacity filling and the per-tick auto-restart
pass.  The initial state may hold arbitrary rooms but empty queues. -/
inductive Reachable (cfg : Config) : SysState → Prop where
  | init (rooms : List Room) : Reachable cfg { rooms := rooms }
  | newRequest {sys} (now : ℚ) (rid speed : String) :
      Reachable cfg sys → Reachable cfg (onNewRequest cfg now rid speed sys)
  | release {sys} (now : ℚ) (rid : String) :
      Reachable cfg sys → Reachable cfg (releaseService cfg now rid sys)
  | cancel {sys} (now : ℚ) (rid : String) :
      Reachable cfg sys → Reachable cfg (cancelRequest cfg now rid sys)
  | rotate {sys} (now : ℚ) (w : ServiceObject) :
      w ∈ sys.waits → Reachable cfg sys →
      Reachable cfg (handleTimeSliceExpiry cfg now w sys)
  | fill {sys} (now : ℚ) :
      Reachable cfg sys → Reachable cfg (fillCapacity cfg now sys)
  | autoRestart {sys} (now : ℚ) :
      Reachable cfg sys → Reachable cfg (handleAutoRestartSched cfg now sys).1

/-!  Theorems.  First the generic facts about the Python-style folds and the
dict-backed tables, then the per-claim results. -/

theorem pyMax_mem (key : ServiceObject → Nat) (x : ServiceObject)
    (xs : List ServiceObject) : pyMax key x xs = x ∨ pyMax key x xs ∈ xs := by
  induction xs generalizing x with
  | nil => exact Or.inl rfl
  | cons y ys ih =>
    simp only [pyMax, List.foldl_cons] at ih ⊢
    by_cases h : key y > key x
    · simp only [if_pos h]
      rcases ih y with h1 | h1
      · rw [h1]; exact Or.inr (List.mem_cons_self _ _)
      · exact Or.inr (List.mem_cons_of_mem _ h1)
    · simp only [if_neg h]
      rcases ih x with h1 | h1
      · exact Or.inl h1
      · exact Or.inr (List.mem_cons_of_mem _ h1)

theorem pyMax_key_ge (key : ServiceObject → Nat) (x : ServiceObject)
    (xs : List ServiceObject) :
    key x ≤ key (pyMax key x xs) ∧ ∀ y ∈ xs, key y ≤ key (pyMax key x xs) := by
  induction xs generalizing x with
  | nil => exact ⟨Nat.le_refl _, by simp⟩
  | cons z zs ih =>
    simp only [pyMax, List.foldl_cons]
    by_cases h : key z > key x
    · simp only [if_pos h]
      refine ⟨Nat.le_trans (Nat.le_of_lt h) (ih z).1, ?_⟩
      intro y hy
      rcases List.mem_cons.mp hy with rfl | hy
      · exact (ih y).1
      · exact (ih z).2 y hy
    · simp only [if_neg h]
      refine ⟨(ih x).1, ?_⟩
      intro y hy
      rcases List.mem_cons.mp hy with rfl | hy
      · exact Nat.le_trans (Nat.le_of_not_lt h) (ih x).1
      · exact (ih x).2 y hy

theorem pyMaxPrio_mem (x : ServiceObject) (xs : List ServiceObject) :
    pyMaxPrio x xs = x ∨ pyMaxPrio x xs ∈ xs := by
  induction xs generalizing x with
  | nil => exact Or.inl rfl
  | cons y ys ih =>
    simp only [pyMaxPrio, List.foldl_cons] at ih ⊢
    by_cases h : tripleLt (prioTriple x) (prioTriple y) = true
    · simp only [if_pos h]
      rcases ih y with h1 | h1
      · rw [h1]; exact Or.inr (List.mem_cons_self _ _)
      · exact Or.inr (List.mem_cons_of_mem _ h1)
    · simp only [if_neg h]
      rcases ih x with h1 | h1
      · exact Or.inl h1
      · exact Or.inr (List.mem_cons_of_mem _ h1)

theorem upsertService_length (entry : ServiceObject) (l : List ServiceObject) :
    (upsertService entry l).length ≤ l.length + 1 := by
  induction l with
  | nil => simp [upsertService]
  | cons x xs ih =>
    simp only [upsertService]
    by_cases h : x.room_id = entry.room_id
    · simp [h]
    · simp only [if_neg h, List.length_cons]
      omega

theorem removeService_length_le (rid : String) (l : List ServiceObject) :
    (removeService rid l).length ≤ l.length :=
  List.length_filter_le _ l

theorem removeService_length_lt (rid : String) (l : List ServiceObject)
    (x : ServiceObject) (hx : x ∈ l) (hid : x.room_id = rid) :
    (removeService rid l).length < l.length := by
  induction l with
  | nil => cases hx
  | cons y ys ih =>
    rcases List.mem_cons.mp hx with rfl | hx
    · simp only [removeService, List.filter_cons, List.length_cons]
      rw [if_neg (by simp [hid] : ¬(decide (x.room_id ≠ rid)) = true)]
      exact Nat.lt_succ_of_le (List.length_filter_le _ ys)
    · have hlt := ih hx
      simp only [removeService, List.filter_cons, List.length_cons] at hlt ⊢
      by_cases hcase : (decide (y.room_id ≠ rid)) = true
      · simp only [if_pos hcase, List.length_cons]
        omega
      · simp only [if_neg hcase]
        omega

theorem removeService_eq_of_not_mem (rid : String) (l : List ServiceObject)
    (h : ∀ x ∈ l, x.room_id ≠ rid) : removeService rid l = l := by
  induction l with
  | nil => rfl
  | cons y ys ih =>
    have hy : y.room_id ≠ rid := h y (List.mem_cons_self _ _)
    have hys := ih fun x hx => h x (List.mem_cons_of_mem _ hx)
    have hcond : (decide (y.room_id ≠ rid)) = true := by simp [hy]
    simp only [removeService, List.filter_cons] at hys ⊢
    simp only [hcond, if_true]
    simp only [List.cons.injEq, true_and]
    exact hys

theorem upsertService_eq_append (entry : ServiceObject) (l : List ServiceObject)
    (h : ∀ x ∈ l, x.room_id ≠ entry.room_id) :
    upsertService entry l = l ++ [entry] := by
  induction l with
  | nil => rfl
  | cons y ys ih =>
    simp only [upsertService]
    have hy : y.room_id ≠ entry.room_id := h y (List.mem_cons_self _ _)
    simp only [if_neg hy, List.cons_append, List.cons.injEq, true_and]
    exact ih fun x hx => h x (List.mem_cons_of_mem _ hx)

/-- The branch structure of select_victim_by_rules once the filtered list of
strictly slower serving objects is known: whatever it returns is an element
of the filtered list. -/
theorem selectVictim_result_mem_slower (services : List ServiceObject)
    (speed : String) (v : ServiceObject)
    (h : selectVictimByRules services speed = some v) :
    v ∈ services.filter fun obj => decide (compareSpeed obj.speed speed < 0) := by
  simp only [selectVictimByRules] at h
  rcases hm : services.filter fun obj => decide (compareSpeed obj.speed speed < 0) with
    _ | ⟨x, _ | ⟨y, ys⟩⟩
  · rw [hm] at h; cases h
  · rw [hm] at h
    simp only [Option.some.injEq] at h
    rw [hm, h]
    exact List.mem_cons_self _ _
  · rw [hm] at h
    simp only at h
    rw [hm]
    by_cases hall : ((y :: ys).all fun obj => decide (obj.speed = x.speed)) = true
    · rw [if_pos hall] at h
      simp only [Option.some.injEq] at h
      rcases pyMax_mem (fun obj => obj.served_seconds) x (y :: ys) with hmem | hmem
      · rw [← h, hmem]; exact List.mem_cons_self _ _
      · rw [← h]; exact List.mem_cons_of_mem _ hmem
    · rw [if_neg hall] at h
      rcases hc : (x :: y :: ys).filter fun obj =>
          decide (speedPriority obj.speed =
            ((y :: ys).map fun obj => speedPriority obj.speed).foldl
              min (speedPriority x.speed)) with _ | ⟨c, cs⟩
      · rw [hc] at h; cases h
      · rw [hc] at h
        simp only [Option.some.injEq] at h
        have hcs : ∀ z ∈ c :: cs, z ∈ x :: y :: ys := by
          intro z hz
          exact List.mem_of_mem_filter (hc ▸ hz)
        rcases pyMax_mem (fun obj => obj.served_seconds) c cs with hmem | hmem
        · rw [← h]; exact hcs _ (by rw [hmem]; exact List.mem_cons_self _ _)
        · rw [← h]; exact hcs _ (List.mem_cons_of_mem _ hmem)

theorem selectVictimByRules_mem (services : List ServiceObject) (speed : String)
    (v : ServiceObject) (h : selectVictimByRules services speed = some v) :
    v ∈ services :=
  List.mem_of_mem_filter (selectVictim_result_mem_slower services speed v h)

theorem longestServed_mem (services : List ServiceObject) (v : ServiceObject)
    (h : longestServed services = some v) : v ∈ services := by
  match services with
  | [] => cases h
  | x :: xs =>
    simp only [longestServed, Option.some.injEq] at h
    rcases pyMax_mem (fun obj => obj.served_seconds) x xs with hmem | hmem
    · rw [← h, hmem]; exact List.mem_cons_self _ _
    · rw [← h]; exact List.mem_cons_of_mem _ hmem

/-!  Projections of the elementary state updates: which tables each one
touches. -/

@[simp]
theorem closeDetailSegment_services (sys : SysState) (rid : String) (now : ℚ) :
    (closeDetailSegment sys rid now).services = sys.services := by
  unfold closeDetailSegment
  cases getActiveDetailRecord rid sys.details <;> rfl

@[simp]
theorem closeDetailSegment_waits (sys : SysState) (rid : String) (now : ℚ) :
    (closeDetailSegment sys rid now).waits = sys.waits := by
  unfold closeDetailSegment
  cases getActiveDetailRecord rid sys.details <;> rfl

@[simp]
theorem closeDetailSegment_rooms (sys : SysState) (rid : String) (now : ℚ) :
    (closeDetailSegment sys rid now).rooms = sys.rooms := by
  unfold closeDetailSegment
  cases getActiveDetailRecord rid sys.details <;> rfl

@[simp]
theorem startDetailSegment_services (cfg : Config) (sys : SysState)
    (rid speed : String) (now : ℚ) :
    (startDetailSegment cfg sys rid speed now).services = sys.services := by
  unfold startDetailSegment
  simp

@[simp]
theorem startDetailSegment_waits (cfg : Config) (sys : SysState)
    (rid speed : String) (now : ℚ) :
    (startDetailSegment cfg sys rid speed now).waits = sys.waits := by
  unfold startDetailSegment
  simp

@[simp]
theorem startDetailSegment_rooms (cfg : Config) (sys : SysState)
    (rid speed : String) (now : ℚ) :
    (startDetailSegment cfg sys rid speed now).rooms = sys.rooms := by
  unfold startDetailSegment
  simp

@[simp]
theorem setRoomAssigned_services (rid speed : String) (sys : SysState) :
    (setRoomAssigned rid speed sys).services = sys.services := by
  unfold setRoomAssigned
  cases findRoom rid sys.rooms <;> rfl

@[simp]
theorem setRoomAssigned_waits (rid speed : String) (sys : SysState) :
    (setRoomAssigned rid speed sys).waits = sys.waits := by
  unfold setRoomAssigned
  cases findRoom rid sys.rooms <;> rfl

@[simp]
theorem setRoomAssigned_details (rid speed : String) (sys : SysState) :
    (setRoomAssigned rid speed sys).details = sys.details := by
  unfold setRoomAssigned
  cases findRoom rid sys.rooms <;> rfl

@[simp]
theorem setRoomNotServing_services (rid : String) (sys : SysState) :
    (setRoomNotServing rid sys).services = sys.services := by
  unfold setRoomNotServing
  cases findRoom rid sys.rooms <;> rfl

@[simp]
theorem setRoomNotServing_waits (rid : String) (sys : SysState) :
    (setRoomNotServing rid sys).waits = sys.waits := by
  unfold setRoomNotServing
  cases findRoom rid sys.rooms <;> rfl

@[simp]
theorem setRoomNotServing_details (rid : String) (sys : SysState) :
    (setRoomNotServing rid sys).details = sys.details := by
  unfold setRoomNotServing
  cases findRoom rid sys.rooms <;> rfl

@[simp]
theorem removeWait_services (rid : String) (sys : SysState) :
    (removeWait rid sys).services = sys.services := rfl

@[simp]
theorem removeWait_rooms (rid : String) (sys : SysState) :
    (removeWait rid sys).rooms = sys.rooms := rfl

@[simp]
theorem boostWaitingPriority_services (speed : String) (sys : SysState) :
    (boostWaitingPriority speed sys).services = sys.services := rfl

@[simp]
theorem boostWaitingPriority_rooms (speed : String) (sys : SysState) :
    (boostWaitingPriority speed sys).rooms = sys.rooms := rfl

theorem assignService_services (cfg : Config) (now : ℚ) (service : ServiceObject)
    (sys : SysState) :
    (assignService cfg now service sys).services =
      upsertService { service with
        status := "SERVING",
        started_at := some (service.started_at.getD now),
        wait_seconds := 0,
        priority_token := 0,
        time_slice_enforced := false } sys.services := by
  unfold assignService
  simp

@[simp]
theorem assignService_waits (cfg : Config) (now : ℚ) (service : ServiceObject)
    (sys : SysState) :
    (assignService cfg now service sys).waits = sys.waits := by
  unfold assignService
  simp

theorem assignService_services_length (cfg : Config) (now : ℚ)
    (service : ServiceObject) (sys : SysState) :
    (assignService cfg now service sys).services.length ≤ sys.services.length + 1 := by
  rw [assignService_services]
  exact upsertService_length _ _

@[simp]
theorem enqueueWaiting_services (cfg : Config) (service : ServiceObject)
    (enforced : Bool) (sys : SysState) :
    (enqueueWaiting cfg service enforced sys).services = sys.services := by
  unfold enqueueWaiting
  simp

theorem enqueueWaiting_waits (cfg : Config) (service : ServiceObject)
    (enforced : Bool) (sys : SysState) :
    (enqueueWaiting cfg service enforced sys).waits =
      upsertService { service with
        time_slice_enforced := enforced,
        wait_seconds := cfg.timeSliceSeconds,
        total_waited_seconds := 0,
        status := "WAITING" } sys.waits := by
  unfold enqueueWaiting
  simp

/-!  Capacity: every scheduler operation keeps the number of serving objects
at or below max_concurrent. -/

theorem fillCapacityAux_capacity (cfg : Config) (now : ℚ) (fuel : Nat)
    (sys : SysState) (h : sys.services.length ≤ cfg.maxConcurrent) :
    (fillCapacityAux cfg now fuel sys).services.length ≤ cfg.maxConcurrent := by
  induction fuel generalizing sys with
  | zero => exact h
  | succ fuel ih =>
    unfold fillCapacityAux
    by_cases hge : sys.services.length ≥ cfg.maxConcurrent
    · rw [if_pos hge]; exact h
    · rw [if_neg hge]
      cases hw : sys.waits with
      | nil => exact h
      | cons w ws =>
        apply ih
        have h1 := assignService_services_length cfg now (pyMaxPrio w ws)
          (removeWait (pyMaxPrio w ws).room_id sys)
        simp only [removeWait_services] at h1
        omega

theorem fillCapacity_capacity (cfg : Config) (now : ℚ) (sys : SysState)
    (h : sys.services.length ≤ cfg.maxConcurrent) :
    (fillCapacity cfg now sys).services.length ≤ cfg.maxConcurrent :=
  fillCapacityAux_capacity cfg now sys.waits.length sys h

theorem releaseService_capacity (cfg : Config) (now : ℚ) (rid : String)
    (sys : SysState) (h : sys.services.length ≤ cfg.maxConcurrent) :
    (releaseService cfg now rid sys).services.length ≤ cfg.maxConcurrent := by
  unfold releaseService
  cases findService rid sys.services with
  | none => exact h
  | some s =>
    apply fillCapacity_capacity
    simp only [setRoomNotServing_services, closeDetailSegment_services]
    exact Nat.le_trans (removeService_length_le rid sys.services) h

theorem cancelRequest_capacity (cfg : Config) (now : ℚ) (rid : String)
    (sys : SysState) (h : sys.services.length ≤ cfg.maxConcurrent) :
    (cancelRequest cfg now rid sys).services.length ≤ cfg.maxConcurrent := by
  unfold cancelRequest
  cases findService rid sys.services with
  | none => simpa using h
  | some s =>
    simp only [setRoomNotServing_services, closeDetailSegment_services,
      removeWait_services]
    exact Nat.le_trans (removeService_length_le rid sys.services) h

theorem removeExisting_capacity (cfg : Config) (now : ℚ) (rid : String)
    (sys : SysState) (h : sys.services.length ≤ cfg.maxConcurrent) :
    (removeExisting cfg now rid sys).services.length ≤ cfg.maxConcurrent := by
  unfold removeExisting
  by_cases hf : (findService rid sys.services).isSome
  · rw [if_pos hf]
    simpa using releaseService_capacity cfg now rid sys h
  · rw [if_neg hf]
    simpa using h

theorem onNewRequest_capacity (cfg : Config) (now : ℚ) (rid speed : String)
    (sys : SysState) (h : sys.services.length ≤ cfg.maxConcurrent) :
    (onNewRequest cfg now rid speed sys).services.length ≤ cfg.maxConcurrent := by
  unfold onNewRequest
  have h1 := removeExisting_capacity cfg now rid sys h
  set sys1 := removeExisting cfg now rid sys with hsys1
  by_cases hlt : sys1.services.length < cfg.maxConcurrent
  · rw [if_pos hlt]
    have := assignService_services_length cfg now { room_id := rid, speed := speed } sys1
    omega
  · rw [if_neg hlt]
    cases hv : selectVictimByRules sys1.services speed with
    | some victim =>
      simp only
      have hmem := selectVictimByRules_mem sys1.services speed victim hv
      have hrm := removeService_length_lt victim.room_id sys1.services victim hmem rfl
      simp only [preempt, assignService_services, boostWaitingPriority_services,
        enqueueWaiting_services, closeDetailSegment_services]
      exact Nat.le_trans (upsertService_length _ _) (by omega)
    | none =>
      simp only
      by_cases hc :
        (match sys1.services.map fun item => compareSpeed speed item.speed with
          | [] => (-1 : Int)
          | c :: cs => cs.foldl max c) = 0
      · rw [if_pos hc]
        simpa using h1
      · rw [if_neg hc]
        simpa using h1

theorem handleTimeSliceExpiry_capacity (cfg : Config) (now : ℚ)
    (w : ServiceObject) (sys : SysState)
    (h : sys.services.length ≤ cfg.maxConcurrent) :
    (handleTimeSliceExpiry cfg now w sys).services.length ≤ cfg.maxConcurrent := by
  unfold handleTimeSliceExpiry
  cases hv : longestServed sys.services with
  | none => exact h
  | some victim =>
    simp only
    have hmem := longestServed_mem sys.services victim hv
    have hrm := removeService_length_lt victim.room_id sys.services victim hmem rfl
    simp only [assignService_services, removeWait_services, closeDetailSegment_services]
    exact Nat.le_trans (upsertService_length _ _) (by omega)

theorem autoRestartFold_capacity (cfg : Config) (now : ℚ)
    (active waiting : List String) (ids : List String)
    (acc : SysState × List String)
    (h : acc.1.services.length ≤ cfg.maxConcurrent) :
    ((ids.foldl (fun acc rid =>
        match findRoom rid acc.1.rooms with
        | none => acc
        | some room =>
          if room.status = RoomStatus.VACANT then acc
          else if active.contains rid || waiting.contains rid then acc
          else if needsAutoRestart room cfg.autoRestartThreshold then
            (onNewRequest cfg now rid (if room.speed = "" then "MID" else room.speed) acc.1,
             acc.2 ++ [rid])
          else acc) acc).1.services.length ≤ cfg.maxConcurrent) := by
  induction ids generalizing acc with
  | nil => exact h
  | cons rid ids ih =>
    simp only [List.foldl_cons]
    apply ih
    cases findRoom rid acc.1.rooms with
    | none => exact h
    | some room =>
      simp only
      by_cases h1 : room.status = RoomStatus.VACANT
      · rw [if_pos h1]; exact h
      · rw [if_neg h1]
        by_cases h2 : (active.contains rid || waiting.contains rid) = true
        · rw [if_pos h2]; exact h
        · rw [if_neg h2]
          by_cases h3 : needsAutoRestart room cfg.autoRestartThreshold = true
          · rw [if_pos h3]
            exact onNewRequest_capacity cfg now rid _ acc.1 h
          · rw [if_neg h3]; exact h

theorem handleAutoRestartSched_capacity (cfg : Config) (now : ℚ)
    (sys : SysState) (h : sys.services.length ≤ cfg.maxConcurrent) :
    (handleAutoRestartSched cfg now sys).1.services.length ≤ cfg.maxConcurrent := by
  unfold handleAutoRestartSched
  dsimp only
  exact autoRestartFold_capacity cfg now (sys.services.map fun s => s.room_id)
    (sys.waits.map fun s => s.room_id) (sys.rooms.map fun r => r.room_id)
    (sys, []) h

/-- C3: in every state reachable from an empty scheduler through the
scheduler operations (on_new_request, release_service, cancel_request,
time-slice rotation, fill-capacity, auto-restart handling), the number of
serving service objects is at most max_concurrent. -/
theorem c3_serving_count_le_max_concurrent (cfg : Config) (sys : SysState)
    (h : Reachable cfg sys) : sys.services.length ≤ cfg.maxConcurrent := by
  induction h with
  | init rooms => exact Nat.zero_le _
  | newRequest now rid speed _ ih => exact onNewRequest_capacity _ _ _ _ _ ih
  | release now rid _ ih => exact releaseService_capacity _ _ _ _ ih
  | cancel now rid _ ih => exact cancelRequest_capacity _ _ _ _ ih
  | rotate now w hw _ ih => exact handleTimeSliceExpiry_capacity _ _ _ _ ih
  | fill now _ ih => exact fillCapacity_capacity _ _ _ ih
  | autoRestart now _ ih => exact handleAutoRestartSched_capacity _ _ _ ih

theorem c3_serving_count_le_max_concurrent_witness :
    (onNewRequest {} 0 "R1" "MID" { rooms := [] }).services.length ≤
      ({} : Config).maxConcurrent :=
  c3_serving_count_le_max_concurrent {} _
    (Reachable.newRequest 0 "R1" "MID" (Reachable.init []))

/-!  Facts about Python min folds, used by the victim-selection analysis. -/

theorem foldlMin_mem (a : Nat) (l : List Nat) :
    l.foldl min a = a ∨ l.foldl min a ∈ l := by
  induction l generalizing a with
  | nil => exact Or.inl rfl
  | cons b bs ih =>
    simp only [List.foldl_cons]
    rcases ih (min a b) with h | h
    · rcases Nat.le_total a b with hab | hab
      · rw [h, Nat.min_eq_left hab]; exact Or.inl rfl
      · rw [h, Nat.min_eq_right hab]; exact Or.inr (List.mem_cons_self _ _)
    · exact Or.inr (List.mem_cons_of_mem _ h)

theorem foldlMin_le (a : Nat) (l : List Nat) :
    l.foldl min a ≤ a ∧ ∀ b ∈ l, l.foldl min a ≤ b := by
  induction l generalizing a with
  | nil => exact ⟨Nat.le_refl _, by simp⟩
  | cons b bs ih =>
    simp only [List.foldl_cons]
    have h := ih (min a b)
    refine ⟨Nat.le_trans h.1 (Nat.min_le_left _ _), ?_⟩
    intro c hc
    rcases List.mem_cons.mp hc with rfl | hc
    · exact Nat.le_trans h.1 (Nat.min_le_right _ _)
    · exact h.2 c hc

theorem compareSpeed_neg_iff (a b : String) :
    compareSpeed a b < 0 ↔ speedPriority a < speedPriority b := by
  unfold compareSpeed
  split_ifs with h1 h2
  · constructor <;> intro h3
    · exact absurd h3 (by decide)
    · omega
  · constructor <;> intro h3
    · exact h2
    · decide
  · constructor <;> intro h3
    · exact absurd h3 (by decide)
    · omega

theorem compareSpeed_zero_iff (a b : String) :
    compareSpeed a b = 0 ↔ speedPriority a = speedPriority b := by
  unfold compareSpeed
  split_ifs with h1 h2
  · constructor <;> intro h3
    · exact absurd h3 (by decide)
    · omega
  · constructor <;> intro h3
    · exact absurd h3 (by decide)
    · omega
  · constructor <;> intro h3
    · omega
    · rfl

theorem selectVictim_of_filter_nil (services : List ServiceObject) (p : String)
    (h : (services.filter fun obj => decide (compareSpeed obj.speed p < 0)) = []) :
    selectVictimByRules services p = none := by
  simp only [selectVictimByRules]
  rw [h]

theorem selectVictim_of_filter_single (services : List ServiceObject) (p : String)
    (x : ServiceObject)
    (h : (services.filter fun obj => decide (compareSpeed obj.speed p < 0)) = [x]) :
    selectVictimByRules services p = some x := by
  simp only [selectVictimByRules]
  rw [h]

theorem selectVictim_of_filter_same_speed (services : List ServiceObject)
    (p : String) (x y : ServiceObject) (ys : List ServiceObject)
    (h : (services.filter fun obj => decide (compareSpeed obj.speed p < 0)) =
      x :: y :: ys)
    (hall : ((y :: ys).all fun obj => decide (obj.speed = x.speed)) = true) :
    selectVictimByRules services p =
      some (pyMax (fun obj => obj.served_seconds) x (y :: ys)) := by
  simp only [selectVictimByRules]
  rw [h]
  simp only [hall, if_true]

theorem selectVictim_of_filter_multi_speed (services : List ServiceObject)
    (p : String) (x y : ServiceObject) (ys : List ServiceObject)
    (h : (services.filter fun obj => decide (compareSpeed obj.speed p < 0)) =
      x :: y :: ys)
    (hall : ¬ ((y :: ys).all fun obj => decide (obj.speed = x.speed)) = true) :
    ∃ c cs,
      ((x :: y :: ys).filter fun obj =>
        decide (speedPriority obj.speed =
          ((y :: ys).map fun obj => speedPriority obj.speed).foldl
            min (speedPriority x.speed))) = c :: cs ∧
      selectVictimByRules services p =
        some (pyMax (fun obj => obj.served_seconds) c cs) := by
  have hattain : ∃ z ∈ x :: y :: ys, speedPriority z.speed =
      ((y :: ys).map fun obj => speedPriority obj.speed).foldl
        min (speedPriority x.speed) := by
    rcases foldlMin_mem (speedPriority x.speed)
        ((y :: ys).map fun obj => speedPriority obj.speed) with hma | hma
    · exact ⟨x, List.mem_cons_self _ _, hma.symm⟩
    · rcases List.mem_map.mp hma with ⟨z, hz, hzeq⟩
      exact ⟨z, List.mem_cons_of_mem _ hz, hzeq⟩
  rcases hattain with ⟨z, hzmem, hzeq⟩
  have hzfil : z ∈ (x :: y :: ys).filter fun obj =>
      decide (speedPriority obj.speed =
        ((y :: ys).map fun obj => speedPriority obj.speed).foldl
          min (speedPriority x.speed)) :=
    List.mem_filter.mpr ⟨hzmem, by simp [hzeq]⟩
  rcases hc : (x :: y :: ys).filter fun obj =>
      decide (speedPriority obj.speed =
        ((y :: ys).map fun obj => speedPriority obj.speed).foldl
          min (speedPriority x.speed)) with _ | ⟨c, cs⟩
  · rw [hc] at hzfil; cases hzfil
  · refine ⟨c, cs, hc, ?_⟩
    simp only [selectVictimByRules]
    rw [h]
    dsimp only
    rw [if_neg hall, hc]

/-- C2: victim selection returns no victim iff no serving object is strictly
slower than the incoming speed; the unique strictly-slower object when
exactly one exists; an object with greatest served_seconds among the
strictly-slower ones when they all share one speed; and otherwise, among
the strictly-slower objects whose speed priority equals the minimum
priority present, one with greatest served_seconds. -/
theorem c2_select_victim_by_rules (services : List ServiceObject) (p : String) :
    (selectVictimByRules services p = none ↔
      ∀ x ∈ services, ¬ speedPriority x.speed < speedPriority p) ∧
    (∀ x, (services.filter fun obj => decide (compareSpeed obj.speed p < 0)) = [x] →
      selectVictimByRules services p = some x) ∧
    (∀ L, L = (services.filter fun obj => decide (compareSpeed obj.speed p < 0)) →
      L ≠ [] → (∀ y ∈ L, ∀ z ∈ L, y.speed = z.speed) →
      ∃ v, selectVictimByRules services p = some v ∧ v ∈ L ∧
        ∀ y ∈ L, y.served_seconds ≤ v.served_seconds) ∧
    (∀ L, L = (services.filter fun obj => decide (compareSpeed obj.speed p < 0)) →
      ¬ (∀ y ∈ L, ∀ z ∈ L, y.speed = z.speed) →
      ∃ v, selectVictimByRules services p = some v ∧ v ∈ L ∧
        (∀ y ∈ L, speedPriority v.speed ≤ speedPriority y.speed) ∧
        (∀ y ∈ L, speedPriority y.speed = speedPriority v.speed →
          y.served_seconds ≤ v.served_seconds)) := by
  refine ⟨?_, ?_, ?_, ?_⟩
  · constructor
    · intro hnone x hx hlt
      rcases hm : services.filter fun obj => decide (compareSpeed obj.speed p < 0) with
        _ | ⟨a, _ | ⟨b, bs⟩⟩
      · have : x ∈ services.filter fun obj => decide (compareSpeed obj.speed p < 0) :=
          List.mem_filter.mpr ⟨hx, by simp [compareSpeed_neg_iff, hlt]⟩
        rw [hm] at this; cases this
      · rw [selectVictim_of_filter_single services p a hm] at hnone; cases hnone
      · by_cases hall : ((b :: bs).all fun obj => decide (obj.speed = a.speed)) = true
        · rw [selectVictim_of_filter_same_speed services p a b bs hm hall] at hnone
          cases hnone
        · rcases selectVictim_of_filter_multi_speed services p a b bs hm hall with
            ⟨c, cs, _, hsel⟩
          rw [hsel] at hnone; cases hnone
    · intro hall
      apply selectVictim_of_filter_nil
      rw [List.filter_eq_nil_iff]
      intro x hx
      simp only [decide_eq_true_eq]
      rw [compareSpeed_neg_iff]
      exact hall x hx
  · intro x hx
    exact selectVictim_of_filter_single services p x hx
  · intro L hL hne hsame
    rcases hm : services.filter fun obj => decide (compareSpeed obj.speed p < 0) with
      _ | ⟨a, _ | ⟨b, bs⟩⟩
    · exact absurd (hL.trans hm) hne
    · refine ⟨a, selectVictim_of_filter_single services p a hm, ?_, ?_⟩
      · rw [hL, hm]; exact List.mem_cons_self _ _
      · intro y hy
        rw [hL, hm] at hy
        rcases List.mem_cons.mp hy with rfl | hy
        · exact Nat.le_refl _
        · cases hy
    · have hall : ((b :: bs).all fun obj => decide (obj.speed = a.speed)) = true := by
        rw [List.all_eq_true]
        intro obj hobj
        simp only [decide_eq_true_eq]
        exact hsame obj (by rw [hL, hm]; exact List.mem_cons_of_mem _ hobj)
          a (by rw [hL, hm]; exact List.mem_cons_self _ _)
      refine ⟨pyMax (fun obj => obj.served_seconds) a (b :: bs),
        selectVictim_of_filter_same_speed services p a b bs hm hall, ?_, ?_⟩
      · rw [hL, hm]
        rcases pyMax_mem (fun obj => obj.served_seconds) a (b :: bs) with hmem | hmem
        · rw [hmem]; exact List.mem_cons_self _ _
        · exact List.mem_cons_of_mem _ hmem
      · intro y hy
        rw [hL, hm] at hy
        have hge := pyMax_key_ge (fun obj => obj.served_seconds) a (b :: bs)
        rcases List.mem_cons.mp hy with rfl | hy
        · exact hge.1
        · exact hge.2 y hy
  · intro L hL hnsame
    rcases hm : services.filter fun obj => decide (compareSpeed obj.speed p < 0) with
      _ | ⟨a, _ | ⟨b, bs⟩⟩
    · exact absurd (fun y hy z hz => by rw [hL, hm] at hy; cases hy) hnsame
    · refine absurd (fun y hy z hz => ?_) hnsame
      rw [hL, hm] at hy hz
      rcases List.mem_cons.mp hy with rfl | hy
      · rcases List.mem_cons.mp hz with rfl | hz
        · rfl
        · cases hz
      · cases hy
    · have hall : ¬ ((b :: bs).all fun obj => decide (obj.speed = a.speed)) = true := by
        intro hcontra
        apply hnsame
        intro y hy z hz
        rw [hL, hm] at hy hz
        have hobj : ∀ w ∈ a :: b :: bs, w.speed = a.speed := by
          intro w hw
          rcases List.mem_cons.mp hw with rfl | hw
          · rfl
          · have := List.all_eq_true.mp hcontra w hw
            simpa using this
        rw [hobj y hy, hobj z hz]
      rcases selectVictim_of_filter_multi_speed services p a b bs hm hall with
        ⟨c, cs, hcand, hsel⟩
      have hminP := foldlMin_le (speedPriority a.speed)
        ((b :: bs).map fun obj => speedPriority obj.speed)
      have hcandsub : ∀ w ∈ c :: cs, w ∈ a :: b :: bs := by
        intro w hw
        exact List.mem_of_mem_filter (hcand ▸ hw)
      have hcandpri : ∀ w ∈ c :: cs, speedPriority w.speed =
          ((b :: bs).map fun obj => speedPriority obj.speed).foldl
            min (speedPriority a.speed) := by
        intro w hw
        have := List.of_mem_filter (hcand ▸ hw)
        simpa using this
      have hvmem : pyMax (fun obj => obj.served_seconds) c cs ∈ c :: cs := by
        rcases pyMax_mem (fun obj => obj.served_seconds) c cs with hmem | hmem
        · rw [hmem]; exact List.mem_cons_self _ _
        · exact List.mem_cons_of_mem _ hmem
      refine ⟨pyMax (fun obj => obj.served_seconds) c cs, hsel, ?_, ?_, ?_⟩
      · rw [hL, hm]
        exact hcandsub _ hvmem
      · intro y hy
        rw [hL, hm] at hy
        rw [hcandpri _ hvmem]
        rcases List.mem_cons.mp hy with rfl | hy
        · exact hminP.1
        · exact hminP.2 _ (List.mem_map.mpr ⟨y, hy, rfl⟩)
      · intro y hy hpri
        rw [hL, hm] at hy
        have hyfil : y ∈ c :: cs := by
          rw [← hcand]
          refine List.mem_filter.mpr ⟨hy, ?_⟩
          simp only [decide_eq_true_eq]
          rw [hpri, hcandpri _ hvmem]
        have hge := pyMax_key_ge (fun obj => obj.served_seconds) c cs
        rcases List.mem_cons.mp hyfil with rfl | hyfil
        · exact hge.1
        · exact hge.2 y hyfil

theorem c2_select_victim_by_rules_witness :
    selectVictimByRules
      [{ room_id := "A", speed := "MID" }] "HIGH" =
      some { room_id := "A", speed := "MID" } :=
  (c2_select_victim_by_rules
    [{ room_id := "A", speed := "MID" }] "HIGH").2.1
    { room_id := "A", speed := "MID" } (by decide)

/-!  Further facts about the dict tables, used by the rotation and waiting
claims. -/

theorem mem_upsertService_self (entry : ServiceObject) (l : List ServiceObject) :
    entry ∈ upsertService entry l := by
  induction l with
  | nil => exact List.mem_singleton.mpr rfl
  | cons y ys ih =>
    simp only [upsertService]
    by_cases h : y.room_id = entry.room_id
    · rw [if_pos h]; exact List.mem_cons_self _ _
    · rw [if_neg h]; exact List.mem_cons_of_mem _ ih

theorem removeService_length_nodup (rid : String) (l : List ServiceObject)
    (hnd : (l.map fun s => s.room_id).Nodup) (x : ServiceObject) (hx : x ∈ l)
    (hid : x.room_id = rid) :
    (removeService rid l).length + 1 = l.length := by
  induction l with
  | nil => cases hx
  | cons y ys ih =>
    simp only [List.map_cons, List.nodup_cons] at hnd
    rcases List.mem_cons.mp hx with rfl | hx
    · have hnone : ∀ z ∈ ys, z.room_id ≠ rid := by
        intro z hz hzr
        exact hnd.1 (List.mem_map.mpr ⟨z, hz, hzr.trans hid.symm⟩)
      simp only [removeService, List.filter_cons]
      rw [if_neg (by simp [hid] : ¬(decide (x.room_id ≠ rid)) = true)]
      have := removeService_eq_of_not_mem rid ys hnone
      simp only [removeService] at this
      rw [this, List.length_cons]
    · have hy : y.room_id ≠ rid := by
        intro hyr
        exact hnd.1 (List.mem_map.mpr ⟨x, hx, hid.trans hyr.symm⟩)
      simp only [removeService, List.filter_cons]
      rw [if_pos (by simp [hy] : (decide (y.room_id ≠ rid)) = true)]
      simp only [List.length_cons]
      have := ih hnd.2 hx
      simp only [removeService] at this
      omega

theorem mem_removeService (rid : String) (l : List ServiceObject)
    (x : ServiceObject) (hx : x ∈ l) (hne : x.room_id ≠ rid) :
    x ∈ removeService rid l :=
  List.mem_filter.mpr ⟨hx, by simp [hne]⟩

theorem upsertService_length_eq (entry : ServiceObject) (l : List ServiceObject)
    (h : ∀ x ∈ l, x.room_id ≠ entry.room_id) :
    (upsertService entry l).length = l.length + 1 := by
  rw [upsertService_eq_append entry l h]
  simp

/-- The services table after a time-slice rotation with victim v: v's row is
removed and the promoted waiting object is written as serving. -/
theorem handleTimeSliceExpiry_services_eq (cfg : Config) (now : ℚ)
    (w : ServiceObject) (sys : SysState) (victim : ServiceObject)
    (hv : longestServed sys.services = some victim) :
    (handleTimeSliceExpiry cfg now w sys).services =
      upsertService { w with
        status := "SERVING",
        started_at := some (w.started_at.getD now),
        wait_seconds := 0,
        priority_token := 0,
        time_slice_enforced := false }
        (removeService victim.room_id sys.services) := by
  unfold handleTimeSliceExpiry
  rw [hv]
  simp [assignService_services]

/-- The waiting table after a time-slice rotation with victim v: v is stored
with time_slice_enforced (its wait_seconds field untouched) and the
promoted object's row is removed. -/
theorem handleTimeSliceExpiry_waits_eq (cfg : Config) (now : ℚ)
    (w : ServiceObject) (sys : SysState) (victim : ServiceObject)
    (hv : longestServed sys.services = some victim) :
    (handleTimeSliceExpiry cfg now w sys).waits =
      removeService w.room_id
        (upsertService
          { victim with
            time_slice_enforced := true,
            status := "WAITING" }
          sys.waits) := by
  unfold handleTimeSliceExpiry
  rw [hv]
  simp [removeWait]

/-- C1 as stated is refuted on a one-slot scheduler: the rotation victim is
saved into the waiting queue with its wait_seconds field unchanged (0 for
an object that went through assign_service), not with a fresh countdown of
Q = time_slice_seconds. -/
theorem c1_counterexample :
    (handleTimeSliceExpiry {} 0 demoW demoRotState).waits =
      [{ demoV with time_slice_enforced := true, status := "WAITING" }] ∧
    (∀ entry ∈ (handleTimeSliceExpiry {} 0 demoW demoRotState).waits,
      entry.wait_seconds = 0) ∧
    ({} : Config).timeSliceSeconds = 60 := by
  refine ⟨by decide, by decide, by decide⟩

/-- C1 amended: handling the expired time slice of waiting w moves the
longest-served serving object v to the waiting queue with
time_slice_enforced = true and its wait countdown left unchanged (it is not
reset to Q), makes w serving, and leaves the number of serving objects
unchanged. -/
theorem c1_time_slice_rotation (cfg : Config) (now : ℚ) (w : ServiceObject)
    (sys : SysState)
    (hnd : (sys.services.map fun s => s.room_id).Nodup)
    (hw : w ∈ sys.waits)
    (hdisj : ∀ s ∈ sys.services, ∀ t ∈ sys.waits, s.room_id ≠ t.room_id)
    (hne : sys.services ≠ []) :
    ∃ victim, longestServed sys.services = some victim ∧ victim ∈ sys.services ∧
      (∀ y ∈ sys.services, y.served_seconds ≤ victim.served_seconds) ∧
      { victim with time_slice_enforced := true, status := "WAITING" } ∈
        (handleTimeSliceExpiry cfg now w sys).waits ∧
      { w with
        status := "SERVING",
        started_at := some (w.started_at.getD now),
        wait_seconds := 0,
        priority_token := 0,
        time_slice_enforced := false } ∈
        (handleTimeSliceExpiry cfg now w sys).services ∧
      (handleTimeSliceExpiry cfg now w sys).services.length =
        sys.services.length := by
  obtain ⟨s0, ss, hs⟩ := List.exists_cons_of_ne_nil hne
  have hv : longestServed sys.services = some (pyMax (fun obj => obj.served_seconds) s0 ss) := by
    rw [hs]; rfl
  set victim := pyMax (fun obj => obj.served_seconds) s0 ss with hvic
  have hvmem : victim ∈ sys.services := by
    rw [hs]
    rcases pyMax_mem (fun obj => obj.served_seconds) s0 ss with hmem | hmem
    · rw [hvic, hmem]; exact List.mem_cons_self _ _
    · exact List.mem_cons_of_mem _ hmem
  have hvmax : ∀ y ∈ sys.services, y.served_seconds ≤ victim.served_seconds := by
    intro y hy
    rw [hs] at hy
    have hge := pyMax_key_ge (fun obj => obj.served_seconds) s0 ss
    rcases List.mem_cons.mp hy with rfl | hy
    · exact hge.1
    · exact hge.2 y hy
  have hvw : victim.room_id ≠ w.room_id := hdisj victim hvmem w hw
  refine ⟨victim, hv, hvmem, hvmax, ?_, ?_, ?_⟩
  · rw [handleTimeSliceExpiry_waits_eq cfg now w sys victim hv]
    exact mem_removeService _ _ _ (mem_upsertService_self _ _) hvw
  · rw [handleTimeSliceExpiry_services_eq cfg now w sys victim hv]
    exact mem_upsertService_self _ _
  · rw [handleTimeSliceExpiry_services_eq cfg now w sys victim hv]
    rw [upsertService_length_eq]
    · have hrem := removeService_length_nodup victim.room_id sys.services hnd victim hvmem rfl
      omega
    · intro x hx
      simpa using hdisj x (List.mem_of_mem_filter hx) w hw

theorem c1_time_slice_rotation_witness :
    ∃ victim, longestServed demoRotState.services = some victim ∧
      victim ∈ demoRotState.services ∧
      (∀ y ∈ demoRotState.services,
        y.served_seconds ≤ victim.served_seconds) ∧
      { victim with time_slice_enforced := true, status := "WAITING" } ∈
        (handleTimeSliceExpiry {} 0 demoW demoRotState).waits ∧
      { demoW with
        status := "SERVING",
        started_at := some (demoW.started_at.getD 0),
        wait_seconds := 0,
        priority_token := 0,
        time_slice_enforced := false } ∈
        (handleTimeSliceExpiry {} 0 demoW demoRotState).services ∧
      (handleTimeSliceExpiry {} 0 demoW demoRotState).services.length =
        demoRotState.services.length :=
  c1_time_slice_rotation {} 0 demoW demoRotState
    (by decide) (by decide) (by decide) (by decide)

/-- C10: on a full scheduler with a non-empty waiting queue, re-requesting
service for the already-serving room r first releases r's slot and the
release immediately fills capacity from the waiting queue, so the formerly
waiting room N ends up serving while r itself ends up waiting. -/
theorem c10_rerequest_refills_before_new_request :
    ((onNewRequest {} 0 "r" "MID" demoFullState).services.map
      fun s => (s.room_id, s.status)) =
      [("A", "SERVING"), ("B", "SERVING"), ("N", "SERVING")] ∧
    ((onNewRequest {} 0 "r" "MID" demoFullState).waits.map
      fun s => (s.room_id, s.status)) = [("r", "WAITING")] := by
  refine ⟨by decide, by decide⟩

theorem findService_eq_none (rid : String) (l : List ServiceObject)
    (h : ∀ x ∈ l, x.room_id ≠ rid) : findService rid l = none :=
  List.find?_eq_none.mpr fun x hx => by simp [h x hx]

theorem removeExisting_absent (cfg : Config) (now : ℚ) (rid : String)
    (sys : SysState)
    (h1 : ∀ x ∈ sys.services, x.room_id ≠ rid)
    (h2 : ∀ x ∈ sys.waits, x.room_id ≠ rid) :
    removeExisting cfg now rid sys = sys := by
  unfold removeExisting
  rw [findService_eq_none rid sys.services h1]
  simp only [Option.isSome_none, Bool.false_eq_true, if_false]
  unfold removeWait
  rw [removeService_eq_of_not_mem rid sys.waits h2]

theorem foldlMax_ge (a : Int) (l : List Int) :
    a ≤ l.foldl max a ∧ ∀ b ∈ l, b ≤ l.foldl max a := by
  induction l generalizing a with
  | nil => exact ⟨le_refl _, by simp⟩
  | cons b bs ih =>
    simp only [List.foldl_cons]
    have h := ih (max a b)
    refine ⟨le_trans (le_max_left _ _) h.1, ?_⟩
    intro c hc
    rcases List.mem_cons.mp hc with rfl | hc
    · exact le_trans (le_max_right _ _) h.1
    · exact h.2 c hc

theorem foldlMax_mem (a : Int) (l : List Int) :
    l.foldl max a = a ∨ l.foldl max a ∈ l := by
  induction l generalizing a with
  | nil => exact Or.inl rfl
  | cons b bs ih =>
    simp only [List.foldl_cons]
    rcases ih (max a b) with h | h
    · rcases le_total a b with hab | hab
      · rw [h, max_eq_right hab]; exact Or.inr (List.mem_cons_self _ _)
      · rw [h, max_eq_left hab]; exact Or.inl rfl
    · exact Or.inr (List.mem_cons_of_mem _ h)

theorem speedPriority_inj_on_valid (a b : String)
    (ha : a = "HIGH" ∨ a = "MID" ∨ a = "LOW")
    (hb : b = "HIGH" ∨ b = "MID" ∨ b = "LOW") :
    speedPriority a = speedPriority b ↔ a = b := by
  rcases ha with rfl | rfl | rfl <;> rcases hb with rfl | rfl | rfl <;> decide

theorem selectVictim_none_imp_no_slower (services : List ServiceObject)
    (p : String) (h : selectVictimByRules services p = none) :
    ∀ x ∈ services, ¬ speedPriority x.speed < speedPriority p := by
  intro x hx hlt
  rcases hm : services.filter fun obj => decide (compareSpeed obj.speed p < 0) with
    _ | ⟨a, _ | ⟨b, bs⟩⟩
  · have : x ∈ services.filter fun obj => decide (compareSpeed obj.speed p < 0) :=
      List.mem_filter.mpr ⟨hx, by simp [compareSpeed_neg_iff, hlt]⟩
    rw [hm] at this; cases this
  · rw [selectVictim_of_filter_single services p a hm] at h; cases h
  · by_cases hall : ((b :: bs).all fun obj => decide (obj.speed = a.speed)) = true
    · rw [selectVictim_of_filter_same_speed services p a b bs hm hall] at h
      cases h
    · rcases selectVictim_of_filter_multi_speed services p a b bs hm hall with
        ⟨c, cs, _, hsel⟩
      rw [hsel] at h; cases h

/-- C8: when on_new_request finds the service queue at capacity and the
victim rules yield no victim, the new request is appended to the waiting
queue with time_slice_enforced set iff some serving object runs at the same
speed (for speeds in the valid set HIGH/MID/LOW); the service queue is
unchanged. -/
theorem c8_enqueue_time_slice_flag (cfg : Config) (now : ℚ)
    (rid speed : String) (sys : SysState)
    (hfull : ¬ sys.services.length < cfg.maxConcurrent)
    (hvict : selectVictimByRules sys.services speed = none)
    (hnots : ∀ x ∈ sys.services, x.room_id ≠ rid)
    (hnotw : ∀ x ∈ sys.waits, x.room_id ≠ rid)
    (hp : speed = "HIGH" ∨ speed = "MID" ∨ speed = "LOW")
    (hvalid : ∀ x ∈ sys.services,
      x.speed = "HIGH" ∨ x.speed = "MID" ∨ x.speed = "LOW") :
    ∃ b : Bool,
      (onNewRequest cfg now rid speed sys).waits =
        sys.waits ++
          [{ room_id := rid, speed := speed,
             wait_seconds := cfg.timeSliceSeconds,
             time_slice_enforced := b, status := "WAITING" }] ∧
      (b = true ↔ ∃ x ∈ sys.services, x.speed = speed) ∧
      (onNewRequest cfg now rid speed sys).services = sys.services := by
  have hcmple : ∀ x ∈ sys.services, compareSpeed speed x.speed ≤ 0 := by
    intro x hx
    have hnlt := selectVictim_none_imp_no_slower sys.services speed hvict x hx
    unfold compareSpeed
    split_ifs with h1 h2
    · omega
    · omega
    · omega
  have hcmpzero : ∀ x ∈ sys.services,
      (compareSpeed speed x.speed = 0 ↔ x.speed = speed) := by
    intro x hx
    rw [compareSpeed_zero_iff]
    rw [speedPriority_inj_on_valid speed x.speed hp (hvalid x hx)]
    exact eq_comm
  have hiff :
      (match sys.services.map fun item => compareSpeed speed item.speed with
        | [] => (-1 : Int)
        | c :: cs => cs.foldl max c) = 0 ↔
      ∃ x ∈ sys.services, x.speed = speed := by
    rcases hsvc : sys.services.map fun item => compareSpeed speed item.speed with
      _ | ⟨c, cs⟩
    · rw [hsvc]
      dsimp only
      constructor
      · intro h; exact absurd h (by decide)
      · rintro ⟨x, hx, -⟩
        have : sys.services = [] := List.map_eq_nil_iff.mp hsvc
        rw [this] at hx; cases hx
    · rw [hsvc]
      dsimp only
      have hsub : ∀ d ∈ c :: cs, ∃ x ∈ sys.services, compareSpeed speed x.speed = d := by
        intro d hd
        rcases List.mem_map.mp (hsvc ▸ hd) with ⟨x, hx, hxe⟩
        exact ⟨x, hx, hxe⟩
      constructor
      · intro hzero
        rcases foldlMax_mem c cs with hm | hm
        · rcases hsub c (List.mem_cons_self _ _) with ⟨x, hx, hxe⟩
          refine ⟨x, hx, (hcmpzero x hx).mp ?_⟩
          rw [hxe, ← hm, hzero]
        · rcases hsub _ (List.mem_cons_of_mem _ hm) with ⟨x, hx, hxe⟩
          refine ⟨x, hx, (hcmpzero x hx).mp ?_⟩
          rw [hxe, hzero]
      · rintro ⟨x, hx, hxs⟩
        have hz : compareSpeed speed x.speed = 0 := (hcmpzero x hx).mpr hxs
        have hmemc : (0 : Int) ∈ c :: cs := by
          rw [← hz, ← hsvc]
          exact List.mem_map.mpr ⟨x, hx, rfl⟩
        have hge := foldlMax_ge c cs
        have hle : cs.foldl max c ≤ 0 := by
          rcases foldlMax_mem c cs with hm | hm
          · rw [hm]
            rcases hsub c (List.mem_cons_self _ _) with ⟨x2, hx2, hx2e⟩
            rw [← hx2e]; exact hcmple x2 hx2
          · rcases hsub _ (List.mem_cons_of_mem _ hm) with ⟨x2, hx2, hx2e⟩
            have := hcmple x2 hx2
            omega
        rcases List.mem_cons.mp hmemc with h0 | h0
        · have := hge.1; omega
        · have := hge.2 0 h0; omega
  have happend : ∀ bb : Bool,
      (enqueueWaiting cfg { room_id := rid, speed := speed } bb sys).waits =
        sys.waits ++
          [{ room_id := rid, speed := speed,
             wait_seconds := cfg.timeSliceSeconds,
             time_slice_enforced := bb, status := "WAITING" }] := by
    intro bb
    rw [enqueueWaiting_waits]
    exact upsertService_eq_append _ _ fun x hx => by simpa using hnotw x hx
  unfold onNewRequest
  rw [removeExisting_absent cfg now rid sys hnots hnotw]
  dsimp only
  rw [if_neg hfull, hvict]
  dsimp only
  by_cases hz :
      (match sys.services.map fun item => compareSpeed speed item.speed with
        | [] => (-1 : Int)
        | c :: cs => cs.foldl max c) = 0
  · rw [if_pos hz]
    exact ⟨true, happend true, by simp [hiff.mp hz], by simp⟩
  · rw [if_neg hz]
    refine ⟨false, happend false, ?_, by simp⟩
    simp only [Bool.false_eq_true, false_iff]
    intro hex
    exact hz (hiff.mpr hex)

/-- C6: within the throttle window a temperature change is buffered as
pending (overwriting any prior pending value) without touching target_temp;
ticks before the window end change nothing; the first tick at or past the
window end writes the pending value and clears it; and hence two changes
inside one window apply exactly the second one. -/
theorem c6_throttle_coalescing (throttleMs : ℚ) :
    (∀ (room : Room) (v2 t t2 : ℚ),
      room.last_temp_change_timestamp = some t →
      (t2 - t) * 1000 < throttleMs →
      requestTargetTemp room v2 t2 throttleMs =
        ({ room with pending_target_temp := some v2 }, false)) ∧
    (∀ (room : Room) (v t t3 : ℚ),
      room.pending_target_temp = some v →
      room.last_temp_change_timestamp = some t →
      (t3 - t) * 1000 < throttleMs →
      applyPendingTarget room t3 throttleMs = room) ∧
    (∀ (room : Room) (v t t4 : ℚ),
      room.pending_target_temp = some v →
      room.last_temp_change_timestamp = some t →
      (t4 - t) * 1000 ≥ throttleMs →
      applyPendingTarget room t4 throttleMs =
        { room with
          target_temp := v,
          pending_target_temp := none,
          last_temp_change_timestamp := some t4 }) ∧
    (∀ (room : Room) (v1 v2 t0 t2 t4 : ℚ),
      room.last_temp_change_timestamp = none →
      (t2 - t0) * 1000 < throttleMs →
      (t4 - t0) * 1000 ≥ throttleMs →
      (requestTargetTemp room v1 t0 throttleMs).2 = true ∧
      (requestTargetTemp room v1 t0 throttleMs).1.target_temp = v1 ∧
      (requestTargetTemp
        (requestTargetTemp room v1 t0 throttleMs).1 v2 t2 throttleMs).1.target_temp = v1 ∧
      (requestTargetTemp
        (requestTargetTemp room v1 t0 throttleMs).1 v2 t2 throttleMs).1.pending_target_temp =
        some v2 ∧
      (applyPendingTarget
        (requestTargetTemp
          (requestTargetTemp room v1 t0 throttleMs).1 v2 t2 throttleMs).1
        t4 throttleMs).target_temp = v2 ∧
      (applyPendingTarget
        (requestTargetTemp
          (requestTargetTemp room v1 t0 throttleMs).1 v2 t2 throttleMs).1
        t4 throttleMs).pending_target_temp = none) := by
  have hreq_in : ∀ (room : Room) (v2 t t2 : ℚ),
      room.last_temp_change_timestamp = some t →
      (t2 - t) * 1000 < throttleMs →
      requestTargetTemp room v2 t2 throttleMs =
        ({ room with pending_target_temp := some v2 }, false) := by
    intro room v2 t t2 hlast hlt
    unfold requestTargetTemp
    rw [hlast]
    dsimp only
    rw [if_pos hlt]
  have happly_late : ∀ (room : Room) (v t t4 : ℚ),
      room.pending_target_temp = some v →
      room.last_temp_change_timestamp = some t →
      (t4 - t) * 1000 ≥ throttleMs →
      applyPendingTarget room t4 throttleMs =
        { room with
          target_temp := v,
          pending_target_temp := none,
          last_temp_change_timestamp := some t4 } := by
    intro room v t t4 hpend hlast hge
    unfold applyPendingTarget
    rw [hpend, hlast]
    dsimp only
    rw [if_pos hge]
  refine ⟨hreq_in, ?_, happly_late, ?_⟩
  · intro room v t t3 hpend hlast hlt
    unfold applyPendingTarget
    rw [hpend, hlast]
    dsimp only
    rw [if_neg (not_le.mpr hlt)]
  · intro room v1 v2 t0 t2 t4 hnone hlt hge
    have h1 : requestTargetTemp room v1 t0 throttleMs =
        ({ room with
            pending_target_temp := none,
            target_temp := v1,
            last_temp_change_timestamp := some t0 }, true) := by
      unfold requestTargetTemp
      rw [hnone]
    have h2 := hreq_in (requestTargetTemp room v1 t0 throttleMs).1 v2 t0 t2
      (by rw [h1]) hlt
    have h3 := happly_late
      (requestTargetTemp
        (requestTargetTemp room v1 t0 throttleMs).1 v2 t2 throttleMs).1
      v2 t0 t4 (by rw [h2]) (by rw [h2, h1]) hge
    refine ⟨by rw [h1], by rw [h1], by rw [h2, h1], by rw [h2], by rw [h3], by rw [h3]⟩

theorem c6_throttle_coalescing_witness :
    (requestTargetTemp { room_id := "R" } 24 0 1000).2 = true ∧
    (requestTargetTemp { room_id := "R" } 24 0 1000).1.target_temp = 24 ∧
    (requestTargetTemp
      (requestTargetTemp { room_id := "R" } 24 0 1000).1 22 (1/2)
      1000).1.target_temp = 24 ∧
    (requestTargetTemp
      (requestTargetTemp { room_id := "R" } 24 0 1000).1 22 (1/2)
      1000).1.pending_target_temp = some 22 ∧
    (applyPendingTarget
      (requestTargetTemp
        (requestTargetTemp { room_id := "R" } 24 0 1000).1 22 (1/2) 1000).1
      2 1000).target_temp = 22 ∧
    (applyPendingTarget
      (requestTargetTemp
        (requestTargetTemp { room_id := "R" } 24 0 1000).1 22 (1/2) 1000).1
      2 1000).pending_target_temp = none :=
  (c6_throttle_coalescing 1000).2.2.2 { room_id := "R" } 24 22 0 (1/2) 2
    (by decide) (by norm_num) (by norm_num)

theorem c8_enqueue_time_slice_flag_witness :
    ∃ b : Bool,
      (onNewRequest {} 0 "X" "MID" demoFullState).waits =
        demoFullState.waits ++
          [{ room_id := "X", speed := "MID",
             wait_seconds := ({} : Config).timeSliceSeconds,
             time_slice_enforced := b, status := "WAITING" }] ∧
      (b = true ↔ ∃ x ∈ demoFullState.services, x.speed = "MID") ∧
      (onNewRequest {} 0 "X" "MID" demoFullState).services =
        demoFullState.services :=
  c8_enqueue_time_slice_flag {} 0 "X" "MID" demoFullState
    (by decide) (by decide) (by decide) (by decide) (by decide) (by decide)

theorem foldlMin_mem_gen {α : Type} [LinearOrder α] (a : α) (l : List α) :
    l.foldl min a = a ∨ l.foldl min a ∈ l := by
  induction l generalizing a with
  | nil => exact Or.inl rfl
  | cons b bs ih =>
    simp only [List.foldl_cons]
    rcases ih (min a b) with h | h
    · rcases le_total a b with hab | hab
      · rw [h, min_eq_left hab]; exact Or.inl rfl
      · rw [h, min_eq_right hab]; exact Or.inr (List.mem_cons_self _ _)
    · exact Or.inr (List.mem_cons_of_mem _ h)

theorem foldlMin_le_gen {α : Type} [LinearOrder α] (a : α) (l : List α) :
    l.foldl min a ≤ a ∧ ∀ b ∈ l, l.foldl min a ≤ b := by
  induction l generalizing a with
  | nil => exact ⟨le_refl _, by simp⟩
  | cons b bs ih =>
    simp only [List.foldl_cons]
    have h := ih (min a b)
    refine ⟨le_trans h.1 (min_le_left _ _), ?_⟩
    intro c hc
    rcases List.mem_cons.mp hc with rfl | hc
    · exact le_trans h.1 (min_le_right _ _)
    · exact h.2 c hc

theorem foldlMax_mem_gen {α : Type} [LinearOrder α] (a : α) (l : List α) :
    l.foldl max a = a ∨ l.foldl max a ∈ l := by
  induction l generalizing a with
  | nil => exact Or.inl rfl
  | cons b bs ih =>
    simp only [List.foldl_cons]
    rcases ih (max a b) with h | h
    · rcases le_total a b with hab | hab
      · rw [h, max_eq_right hab]; exact Or.inr (List.mem_cons_self _ _)
      · rw [h, max_eq_left hab]; exact Or.inl rfl
    · exact Or.inr (List.mem_cons_of_mem _ h)

theorem foldlMax_ge_gen {α : Type} [LinearOrder α] (a : α) (l : List α) :
    a ≤ l.foldl max a ∧ ∀ b ∈ l, b ≤ l.foldl max a := by
  induction l generalizing a with
  | nil => exact ⟨le_refl _, by simp⟩
  | cons b bs ih =>
    simp only [List.foldl_cons]
    have h := ih (max a b)
    refine ⟨le_trans (le_max_left _ _) h.1, ?_⟩
    intro c hc
    rcases List.mem_cons.mp hc with rfl | hc
    · exact le_trans (le_max_right _ _) h.1
    · exact h.2 c hc

theorem foldl_addRecord_spec (b : ACBill) (l : List DetailRecord) :
    (l.foldl addRecord b).details = b.details ++ l ∧
    (l.foldl addRecord b).total_fee = b.total_fee + (l.map fun r => r.fee_value).sum ∧
    (l.foldl addRecord b).period_start = b.period_start ∧
    (l.foldl addRecord b).period_end = b.period_end := by
  induction l generalizing b with
  | nil => simp
  | cons r rs ih =>
    simp only [List.foldl_cons]
    have h := ih (addRecord b r)
    refine ⟨?_, ?_, ?_, ?_⟩
    · rw [h.1]; simp [addRecord]
    · rw [h.2.1]; simp [addRecord]; ring
    · rw [h.2.2.1]; rfl
    · rw [h.2.2.2]; rfl

/-- C7: aggregate_records_to_bill keeps exactly the closed detail records of
the room filtered to the latest stay (all of them when no accommodation
order exists, the set F below); when records remain the produced bill lists
exactly those records, its total fee is the sum of their fee values, its
period_start is the least started_at and its period_end the greatest
ended_at; when no record survives the stay filter no bill is produced. -/
theorem c7_aggregate_records_to_bill (sys : SysState) (rid : String)
    (F : List DetailRecord)
    (hF : F = (match latestAccOrder rid sys.accOrders with
      | some o => (listCompletedDetails rid sys.details).filter
          fun r => decide (r.started_at ≥ o.check_in_at)
      | none => listCompletedDetails rid sys.details))
    (hne : listCompletedDetails rid sys.details ≠ []) :
    (F = [] → (aggregateRecordsToBill sys rid).2 = none) ∧
    (∀ f0 fs, F = f0 :: fs →
      ∃ bill, (aggregateRecordsToBill sys rid).2 = some bill ∧
        bill.details = F ∧
        bill.total_fee = (F.map fun r => r.fee_value).sum ∧
        bill.period_start ∈ F.map (fun r => r.started_at) ∧
        (∀ s ∈ F.map fun r => r.started_at, bill.period_start ≤ s) ∧
        bill.period_end ∈ F.filterMap (fun r => r.ended_at) ∧
        (∀ e ∈ F.filterMap fun r => r.ended_at, e ≤ bill.period_end)) := by
  obtain ⟨c0, cs0, h0⟩ := List.exists_cons_of_ne_nil hne
  have hFsub : ∀ r ∈ F, r ∈ listCompletedDetails rid sys.details := by
    rw [hF]
    cases latestAccOrder rid sys.accOrders with
    | none => exact fun r hr => hr
    | some o => exact fun r hr => List.mem_of_mem_filter hr
  have hFended : ∀ r ∈ F, r.ended_at.isSome = true := by
    intro r hr
    have h2 := List.of_mem_filter (hFsub r hr)
    rcases hre : r.ended_at with _ | e
    · rw [hre] at h2
      simp at h2
    · rfl
  rw [h0] at hF
  refine ⟨?_, ?_⟩
  · intro hFnil
    simp only [aggregateRecordsToBill]
    rw [h0]
    dsimp only
    rw [← hF, hFnil]
  · intro f0 fs hFcons
    simp only [aggregateRecordsToBill]
    rw [h0]
    dsimp only
    rw [← hF, hFcons]
    dsimp only
    have hfold := foldl_addRecord_spec
      { bill_id := sys.nextId, room_id := rid,
        period_start := (fs.map fun r => r.started_at).foldl min f0.started_at,
        period_end :=
          match (f0 :: fs).filterMap (fun r => r.ended_at) with
          | [] => f0.started_at
          | e :: es => es.foldl max e,
        total_fee := 0, details := [] } (f0 :: fs)
    refine ⟨_, rfl, ?_, ?_, ?_, ?_, ?_, ?_⟩
    · rw [hfold.1]; simp
    · rw [hfold.2.1]; simp
    · rw [hfold.2.2.1]
      dsimp only
      rcases foldlMin_mem_gen f0.started_at (fs.map fun r => r.started_at) with h | h
      · rw [h]; exact List.mem_cons_self _ _
      · exact List.mem_cons_of_mem _ h
    · intro s hs
      rw [hfold.2.2.1]
      dsimp only
      have hle := foldlMin_le_gen f0.started_at (fs.map fun r => r.started_at)
      rcases List.mem_cons.mp hs with rfl | hs
      · exact hle.1
      · exact hle.2 s hs
    · rw [hfold.2.2.2]
      dsimp only
      have hf0 : f0.ended_at.isSome = true :=
        hFended f0 (hFcons ▸ List.mem_cons_self _ _)
      obtain ⟨e0, he0⟩ := Option.isSome_iff_exists.mp hf0
      have he0mem : e0 ∈ (f0 :: fs).filterMap fun r => r.ended_at :=
        List.mem_filterMap.mpr ⟨f0, List.mem_cons_self _ _, he0⟩
      rcases he : (f0 :: fs).filterMap fun r => r.ended_at with _ | ⟨e, es⟩
      · rw [he] at he0mem; cases he0mem
      · rw [he]
        dsimp only
        rcases foldlMax_mem_gen e es with h | h
        · rw [h]; exact List.mem_cons_self _ _
        · exact List.mem_cons_of_mem _ h
    · intro e1 he1
      rw [hfold.2.2.2]
      dsimp only
      rcases he : (f0 :: fs).filterMap fun r => r.ended_at with _ | ⟨e, es⟩
      · rw [he] at he1; cases he1
      · rw [he] at he1
        rw [he]
        dsimp only
        have hge := foldlMax_ge_gen e es
        rcases List.mem_cons.mp he1 with rfl | he1
        · exact hge.1
        · exact hge.2 e1 he1

theorem c7_aggregate_records_to_bill_witness :
    ∃ bill, (aggregateRecordsToBill demoBillState "R").2 = some bill ∧
      bill.details = [demoRecMid, demoRecLate] ∧
      bill.total_fee = ([demoRecMid, demoRecLate].map fun r => r.fee_value).sum ∧
      bill.period_start ∈ [demoRecMid, demoRecLate].map (fun r => r.started_at) ∧
      (∀ s ∈ [demoRecMid, demoRecLate].map fun r => r.started_at,
        bill.period_start ≤ s) ∧
      bill.period_end ∈ [demoRecMid, demoRecLate].filterMap (fun r => r.ended_at) ∧
      (∀ e ∈ [demoRecMid, demoRecLate].filterMap fun r => r.ended_at,
        e ≤ bill.period_end) :=
  (c7_aggregate_records_to_bill demoBillState "R" [demoRecMid, demoRecLate]
    (by decide) (by decide)).2 demoRecMid [demoRecLate] rfl

@[simp]
theorem closeDetailSegment_accOrders (sys : SysState) (rid : String) (now : ℚ) :
    (closeDetailSegment sys rid now).accOrders = sys.accOrders := by
  unfold closeDetailSegment
  cases getActiveDetailRecord rid sys.details <;> rfl

@[simp]
theorem setRoomNotServing_accOrders (rid : String) (sys : SysState) :
    (setRoomNotServing rid sys).accOrders = sys.accOrders := by
  unfold setRoomNotServing
  cases findRoom rid sys.rooms <;> rfl

@[simp]
theorem removeWait_accOrders (rid : String) (sys : SysState) :
    (removeWait rid sys).accOrders = sys.accOrders := rfl

@[simp]
theorem cancelRequest_accOrders (cfg : Config) (now : ℚ) (rid : String)
    (sys : SysState) :
    (cancelRequest cfg now rid sys).accOrders = sys.accOrders := by
  unfold cancelRequest
  cases findService rid sys.services <;> simp

theorem findRoom_some_id (rid : String) (l : List Room) (r : Room)
    (h : findRoom rid l = some r) : r.room_id = rid := by
  unfold findRoom at h
  have h2 := List.find?_some h
  simpa using h2

theorem findRoom_upsertRoom_self (r : Room) (l : List Room) :
    findRoom r.room_id (upsertRoom r l) = some r := by
  induction l with
  | nil =>
    simp [findRoom, upsertRoom]
  | cons y ys ih =>
    simp only [upsertRoom]
    by_cases h : y.room_id = r.room_id
    · rw [if_pos h]
      simp [findRoom]
    · rw [if_neg h]
      simp only [findRoom, List.find?_cons]
      have hd : (decide (y.room_id = r.room_id)) = false := by simp [h]
      rw [hd]
      exact ih

/-- C9 as stated is refuted: check_in performs no occupancy precondition
check.  On a state whose room R is already OCCUPIED, check_in succeeds and
appends a fresh accommodation order instead of failing. -/
theorem c9_counterexample :
    (findRoom "R" demoOccState.rooms).map (fun r => r.status) =
      some RoomStatus.OCCUPIED ∧
    (checkIn {} 0 "R" "Guest" 1 100 50 demoOccState).1.accOrders.length =
      demoOccState.accOrders.length + 1 := by
  refine ⟨by decide, by decide⟩

/-- C9 amended: check_in on an already OCCUPIED room does not fail and does
not leave state unchanged: it appends exactly one new accommodation order
for the room and re-initialises the room (still OCCUPIED, speed MID, fee 0,
not serving).  Room-state validation is delegated to the front end by the
source's own SSD comment. -/
theorem c9_checkin_on_occupied_succeeds (cfg : Config) (now : ℚ)
    (rid custName : String) (guestCount : Nat) (checkInAt deposit : ℚ)
    (sys : SysState) (room : Room)
    (hfind : findRoom rid sys.rooms = some room)
    (_hocc : room.status = RoomStatus.OCCUPIED) :
    (∃ order : AccOrder,
      (checkIn cfg now rid custName guestCount checkInAt deposit sys).1.accOrders =
        sys.accOrders ++ [order] ∧
      order.room_id = rid ∧ order.nights = 1 ∧ order.deposit = deposit ∧
      order.check_in_at = checkInAt) ∧
    (∃ room2 : Room,
      findRoom rid
        (checkIn cfg now rid custName guestCount checkInAt deposit sys).1.rooms =
        some room2 ∧
      room2.status = RoomStatus.OCCUPIED ∧ room2.speed = "MID" ∧
      room2.total_fee = 0 ∧ room2.is_serving = false) := by
  have hid := findRoom_some_id rid sys.rooms room hfind
  simp only [checkIn]
  rw [hfind]
  dsimp only
  constructor
  · exact ⟨{ order_id := (closeDetailSegment (cancelRequest cfg now rid sys) rid now).nextId + 1, room_id := rid, customer_name := custName, guest_count := guestCount, nights := 1, deposit := deposit, check_in_at := checkInAt, timer_id := some (closeDetailSegment (cancelRequest cfg now rid sys) rid now).nextId }, by simp, rfl, rfl, rfl, rfl⟩
  · refine ⟨{ room with
      initial_temp := room.current_temp,
      speed := "MID",
      total_fee := 0,
      is_serving := false,
      status := RoomStatus.OCCUPIED }, ?_, rfl, rfl, rfl, rfl⟩
    dsimp only
    rw [show rid = ({ room with
      initial_temp := room.current_temp,
      speed := "MID",
      total_fee := 0,
      is_serving := false,
      status := RoomStatus.OCCUPIED } : Room).room_id from hid.symm]
    exact findRoom_upsertRoom_self _ _

theorem c9_checkin_on_occupied_succeeds_witness :
    (∃ order : AccOrder,
      (checkIn {} 0 "R" "Guest" 1 100 50 demoOccState).1.accOrders =
        demoOccState.accOrders ++ [order] ∧
      order.room_id = "R" ∧ order.nights = 1 ∧ order.deposit = 50 ∧
      order.check_in_at = 100) ∧
    (∃ room2 : Room,
      findRoom "R" (checkIn {} 0 "R" "Guest" 1 100 50 demoOccState).1.rooms =
        some room2 ∧
      room2.status = RoomStatus.OCCUPIED ∧ room2.speed = "MID" ∧
      room2.total_fee = 0 ∧ room2.is_serving = false) :=
  c9_checkin_on_occupied_succeeds {} 0 "R" "Guest" 1 100 50 demoOccState
    { room_id := "R",
      status := RoomStatus.OCCUPIED,
      current_temp := 26,
      target_temp := 24 } (by decide) (by decide)

/-- C4: the code contradicts the claim.  After a completed stay (check-in
then check-out) a second check_out does not fail: the accommodation order is
never deactivated, so the room is billed again; and on a room with no order
at all, check_out raises only after power_off has already flipped the
room's manual_powered_off flag, so even the failing call mutates state. -/
theorem c4_checkout_bug_evidence :
    (∃ r1, (checkOut {} 50 "R"
        (checkIn {} 0 "R" "G" 1 0 100 demoOccState).1).2 = Except.ok r1) ∧
    (∃ r2, (checkOut {} 60 "R"
        (checkOut {} 50 "R"
          (checkIn {} 0 "R" "G" 1 0 100 demoOccState).1).1).2 = Except.ok r2) ∧
    (checkOut {} 0 "R" demoOccState).2 =
      Except.error "Room has no active accommodation order." ∧
    (findRoom "R" (checkOut {} 0 "R" demoOccState).1.rooms).map
      (fun r => r.manual_powered_off) = some true ∧
    (findRoom "R" demoOccState.rooms).map (fun r => r.manual_powered_off) =
      some false := by
  refine ⟨⟨_, rfl⟩, ⟨_, rfl⟩, rfl, rfl, rfl⟩

/-!  The auto-restart stages.  The scheduler operations triggered from the
auto-restart loop rewrite only is_serving and speed on rooms, so the
stableProj image of the rooms table is invariant; that lets the loop's
per-room decisions be read off the initial state. -/

theorem findRoom_map_stable (l1 l2 : List Room)
    (h : l1.map stableProj = l2.map stableProj) (rid : String) :
    (findRoom rid l1).map stableProj = (findRoom rid l2).map stableProj := by
  induction l1 generalizing l2 with
  | nil =>
    cases l2 with
    | nil => rfl
    | cons b bs => simp at h
  | cons a as ih =>
    cases l2 with
    | nil => simp at h
    | cons b bs =>
      simp only [List.map_cons, List.cons.injEq] at h
      obtain ⟨hab, hrest⟩ := h
      have hid : a.room_id = b.room_id := congrArg Prod.fst hab
      simp only [findRoom, List.find?_cons]
      cases hdec : decide (a.room_id = rid) with
      | true =>
        have hdec2 : decide (b.room_id = rid) = true := by rw [← hid]; exact hdec
        rw [hdec2]
        simpa using hab
      | false =>
        have hdec2 : decide (b.room_id = rid) = false := by rw [← hid]; exact hdec
        rw [hdec2]
        exact ih bs hrest

theorem upsertRoom_stable (r r2 : Room) (l : List Room)
    (hfind : findRoom r2.room_id l = some r) (hst : stableProj r2 = stableProj r) :
    (upsertRoom r2 l).map stableProj = l.map stableProj := by
  induction l with
  | nil => cases hfind
  | cons y ys ih =>
    simp only [findRoom, List.find?_cons] at hfind
    simp only [upsertRoom]
    cases hdec : decide (y.room_id = r2.room_id) with
    | true =>
      rw [hdec] at hfind
      simp only [Option.some.injEq] at hfind
      rw [if_pos (of_decide_eq_true hdec), List.map_cons, List.map_cons, hst, hfind]
    | false =>
      rw [hdec] at hfind
      rw [if_neg (of_decide_eq_false hdec), List.map_cons, List.map_cons, ih hfind]

theorem setRoomAssigned_stable (rid speed : String) (sys : SysState) :
    (setRoomAssigned rid speed sys).rooms.map stableProj =
      sys.rooms.map stableProj := by
  unfold setRoomAssigned
  cases hf : findRoom rid sys.rooms with
  | none => rfl
  | some room =>
    have hid := findRoom_some_id rid sys.rooms room hf
    dsimp only
    exact upsertRoom_stable room _ sys.rooms
      (by rw [show ({ room with is_serving := true, speed := speed } : Room).room_id = rid
        from hid]; exact hf) rfl

theorem setRoomNotServing_stable (rid : String) (sys : SysState) :
    (setRoomNotServing rid sys).rooms.map stableProj =
      sys.rooms.map stableProj := by
  unfold setRoomNotServing
  cases hf : findRoom rid sys.rooms with
  | none => rfl
  | some room =>
    have hid := findRoom_some_id rid sys.rooms room hf
    dsimp only
    exact upsertRoom_stable room _ sys.rooms
      (by rw [show ({ room with is_serving := false } : Room).room_id = rid
        from hid]; exact hf) rfl

theorem assignService_stable (cfg : Config) (now : ℚ) (s : ServiceObject)
    (sys : SysState) :
    (assignService cfg now s sys).rooms.map stableProj =
      sys.rooms.map stableProj := by
  unfold assignService
  dsimp only
  rw [startDetailSegment_rooms]
  exact setRoomAssigned_stable _ _ _

theorem enqueueWaiting_stable (cfg : Config) (s : ServiceObject) (b : Bool)
    (sys : SysState) :
    (enqueueWaiting cfg s b sys).rooms.map stableProj =
      sys.rooms.map stableProj := by
  unfold enqueueWaiting
  dsimp only
  exact setRoomNotServing_stable _ _

theorem fillCapacityAux_stable (cfg : Config) (now : ℚ) (fuel : Nat)
    (sys : SysState) :
    (fillCapacityAux cfg now fuel sys).rooms.map stableProj =
      sys.rooms.map stableProj := by
  induction fuel generalizing sys with
  | zero => rfl
  | succ fuel ih =>
    unfold fillCapacityAux
    split
    · rfl
    · split
      · rfl
      · rw [ih, assignService_stable]
        rfl

theorem fillCapacity_stable (cfg : Config) (now : ℚ) (sys : SysState) :
    (fillCapacity cfg now sys).rooms.map stableProj =
      sys.rooms.map stableProj :=
  fillCapacityAux_stable cfg now sys.waits.length sys

theorem releaseService_stable (cfg : Config) (now : ℚ) (rid : String)
    (sys : SysState) :
    (releaseService cfg now rid sys).rooms.map stableProj =
      sys.rooms.map stableProj := by
  unfold releaseService
  cases findService rid sys.services with
  | none => rfl
  | some s =>
    dsimp only
    rw [fillCapacity_stable, setRoomNotServing_stable, closeDetailSegment_rooms]

theorem cancelRequest_stable (cfg : Config) (now : ℚ) (rid : String)
    (sys : SysState) :
    (cancelRequest cfg now rid sys).rooms.map stableProj =
      sys.rooms.map stableProj := by
  unfold cancelRequest
  cases findService rid sys.services with
  | none =>
    dsimp only
    rw [setRoomNotServing_stable, closeDetailSegment_rooms, removeWait_rooms]
  | some s =>
    dsimp only
    rw [setRoomNotServing_stable, closeDetailSegment_rooms, removeWait_rooms]

theorem removeExisting_stable (cfg : Config) (now : ℚ) (rid : String)
    (sys : SysState) :
    (removeExisting cfg now rid sys).rooms.map stableProj =
      sys.rooms.map stableProj := by
  unfold removeExisting
  dsimp only
  split
  · exact releaseService_stable cfg now rid sys
  · rfl

theorem preempt_stable (cfg : Config) (now : ℚ) (victim newService : ServiceObject)
    (sys : SysState) :
    (preempt cfg now victim newService sys).rooms.map stableProj =
      sys.rooms.map stableProj := by
  unfold preempt
  dsimp only
  rw [assignService_stable, boostWaitingPriority_rooms, enqueueWaiting_stable,
    closeDetailSegment_rooms]

theorem onNewRequest_stable (cfg : Config) (now : ℚ) (rid speed : String)
    (sys : SysState) :
    (onNewRequest cfg now rid speed sys).rooms.map stableProj =
      sys.rooms.map stableProj := by
  unfold onNewRequest
  dsimp only
  split
  · rw [assignService_stable]
    exact removeExisting_stable cfg now rid sys
  · split
    · rw [preempt_stable]
      exact removeExisting_stable cfg now rid sys
    · split
      · rw [enqueueWaiting_stable]
        exact removeExisting_stable cfg now rid sys
      · rw [enqueueWaiting_stable]
        exact removeExisting_stable cfg now rid sys

theorem findRoom_of_mem_nodup (rooms : List Room) (room : Room) (rid : String)
    (hnd : (rooms.map fun r => r.room_id).Nodup) (hm : room ∈ rooms)
    (hid : room.room_id = rid) : findRoom rid rooms = some room := by
  induction rooms with
  | nil => cases hm
  | cons y ys ih =>
    rcases List.mem_cons.mp hm with h | h
    · subst h
      unfold findRoom
      rw [List.find?_cons, show decide (room.room_id = rid) = true from
        decide_eq_true hid]
    · have hy : y.room_id ≠ rid := by
        intro hcontra
        have hin : y.room_id ∈ ys.map fun r => r.room_id := by
          rw [hcontra, ← hid]
          exact List.mem_map_of_mem _ h
        exact (List.nodup_cons.mp hnd).1 hin
      unfold findRoom
      rw [List.find?_cons, show decide (y.room_id = rid) = false from
        decide_eq_false hy]
      exact ih (List.nodup_cons.mp hnd).2 h

/-- Membership in the published list of TimeManager._check_auto_restart,
with the two timer-derived room snapshots generalized. -/
theorem tmAutoRestartFold_mem (threshold : ℚ) (A W : List String)
    (rooms : List Room) (acc : List String) (rid : String) :
    (rid ∈ rooms.foldl
        (fun acc room =>
          if room.status = RoomStatus.VACANT then acc
          else if room.manual_powered_off then acc
          else if A.contains room.room_id ||
                  W.contains room.room_id then acc
          else if needsAutoRestart room threshold then acc ++ [room.room_id]
          else acc)
        acc ↔
      rid ∈ acc ∨ ∃ room ∈ rooms, room.room_id = rid ∧
        room.status ≠ RoomStatus.VACANT ∧
        room.manual_powered_off = false ∧
        (A.contains rid || W.contains rid) = false ∧
        needsAutoRestart room threshold = true) := by
  induction rooms generalizing acc with
  | nil => simp
  | cons r rs ih =>
    rw [List.foldl_cons]
    by_cases h1 : r.status = RoomStatus.VACANT
    · rw [if_pos h1, ih]
      have hPr : ¬(r.room_id = rid ∧ r.status ≠ RoomStatus.VACANT ∧
          r.manual_powered_off = false ∧
          (A.contains rid || W.contains rid) = false ∧
          needsAutoRestart r threshold = true) := fun h => h.2.1 h1
      simp only [List.mem_cons, or_and_right, exists_or, exists_eq_left]
      rw [or_iff_right hPr]
    · rw [if_neg h1]
      by_cases h2 : r.manual_powered_off = true
      · rw [if_pos h2, ih]
        have hPr : ¬(r.room_id = rid ∧ r.status ≠ RoomStatus.VACANT ∧
            r.manual_powered_off = false ∧
            (A.contains rid || W.contains rid) = false ∧
            needsAutoRestart r threshold = true) := by
          rintro ⟨-, -, hman, -, -⟩
          rw [hman] at h2
          cases h2
        simp only [List.mem_cons, or_and_right, exists_or, exists_eq_left]
        rw [or_iff_right hPr]
      · rw [if_neg h2]
        have hman : r.manual_powered_off = false := by
          cases hb : r.manual_powered_off with
          | false => rfl
          | true => exact absurd hb h2
        by_cases h3 : (A.contains r.room_id || W.contains r.room_id) = true
        · rw [if_pos h3, ih]
          have hPr : ¬(r.room_id = rid ∧ r.status ≠ RoomStatus.VACANT ∧
              r.manual_powered_off = false ∧
              (A.contains rid || W.contains rid) = false ∧
              needsAutoRestart r threshold = true) := by
            rintro ⟨hidr, -, -, hcont, -⟩
            rw [← hidr] at hcont
            rw [hcont] at h3
            cases h3
          simp only [List.mem_cons, or_and_right, exists_or, exists_eq_left]
          rw [or_iff_right hPr]
        · rw [if_neg h3]
          have hcont : (A.contains r.room_id || W.contains r.room_id) = false := by
            cases hb : (A.contains r.room_id || W.contains r.room_id) with
            | false => rfl
            | true => exact absurd hb h3
          by_cases h4 : needsAutoRestart r threshold = true
          · rw [if_pos h4, ih]
            have hPr : (r.room_id = rid ∧ r.status ≠ RoomStatus.VACANT ∧
                r.manual_powered_off = false ∧
                (A.contains rid || W.contains rid) = false ∧
                needsAutoRestart r threshold = true) ↔ rid = r.room_id := by
              constructor
              · exact fun h => h.1.symm
              · rintro rfl
                exact ⟨rfl, h1, hman, hcont, h4⟩
            simp only [List.mem_append, List.mem_cons, List.not_mem_nil,
              or_false, or_and_right, exists_or, exists_eq_left, hPr]
            rw [or_assoc]
          · rw [if_neg h4, ih]
            have hPr : ¬(r.room_id = rid ∧ r.status ≠ RoomStatus.VACANT ∧
                r.manual_powered_off = false ∧
                (A.contains rid || W.contains rid) = false ∧
                needsAutoRestart r threshold = true) := by
              rintro ⟨-, -, -, -, hn⟩
              exact h4 hn
            simp only [List.mem_cons, or_and_right, exists_or, exists_eq_left]
            rw [or_iff_right hPr]

/-- Membership in the fired-room list of the Scheduler._handle_auto_restart
loop: since the scheduler operations leave the stable projection of the
rooms table unchanged, each iteration's decision can be read off a fixed
reference table rooms0. -/
theorem schedAutoRestartFold_mem (cfg : Config) (now : ℚ)
    (A W : List String) (rooms0 : List Room) (ids : List String)
    (acc : SysState × List String) (rid : String)
    (hst : acc.1.rooms.map stableProj = rooms0.map stableProj) :
    (rid ∈ (ids.foldl (fun acc rid =>
        match findRoom rid acc.1.rooms with
        | none => acc
        | some room =>
          if room.status = RoomStatus.VACANT then acc
          else if A.contains rid || W.contains rid then acc
          else if needsAutoRestart room cfg.autoRestartThreshold then
            (onNewRequest cfg now rid (if room.speed = "" then "MID" else room.speed) acc.1,
             acc.2 ++ [rid])
          else acc) acc).2 ↔
      rid ∈ acc.2 ∨ (rid ∈ ids ∧ schedFireCond cfg A W rooms0 rid)) := by
  induction ids generalizing acc with
  | nil => simp
  | cons i is ih =>
    rw [List.foldl_cons]
    have hfr := findRoom_map_stable acc.1.rooms rooms0 hst i
    cases hm : findRoom i acc.1.rooms with
    | none =>
      rw [hm] at hfr
      dsimp only
      rw [ih acc hst]
      have hPr : ¬(rid = i ∧ schedFireCond cfg A W rooms0 rid) := by
        rintro ⟨heq, p, hp, -⟩
        rw [heq] at hp
        rw [hp] at hfr
        exact Option.noConfusion hfr
      simp only [List.mem_cons, or_and_right]
      rw [or_iff_right hPr]
    | some room =>
      rw [hm] at hfr
      dsimp only
      by_cases h1 : room.status = RoomStatus.VACANT
      · rw [if_pos h1, ih acc hst]
        have hPr : ¬(rid = i ∧ schedFireCond cfg A W rooms0 rid) := by
          rintro ⟨heq, p, hp, hstat, -, -⟩
          rw [heq] at hp
          rw [hp] at hfr
          have hpe : stableProj room = p := Option.some.inj hfr
          rw [← hpe] at hstat
          exact hstat h1
        simp only [List.mem_cons, or_and_right]
        rw [or_iff_right hPr]
      · rw [if_neg h1]
        by_cases h3 : (A.contains i || W.contains i) = true
        · rw [if_pos h3, ih acc hst]
          have hPr : ¬(rid = i ∧ schedFireCond cfg A W rooms0 rid) := by
            rintro ⟨heq, p, hp, -, hcont, -⟩
            rw [heq] at hcont
            rw [hcont] at h3
            cases h3
          simp only [List.mem_cons, or_and_right]
          rw [or_iff_right hPr]
        · rw [if_neg h3]
          by_cases h4 : needsAutoRestart room cfg.autoRestartThreshold = true
          · rw [if_pos h4]
            have hst' : (onNewRequest cfg now i
                (if room.speed = "" then "MID" else room.speed)
                acc.1).rooms.map stableProj = rooms0.map stableProj :=
              (onNewRequest_stable _ _ _ _ _).trans hst
            rw [ih ((onNewRequest cfg now i
              (if room.speed = "" then "MID" else room.speed) acc.1,
              acc.2 ++ [i])) hst']
            have hCi : rid = i → schedFireCond cfg A W rooms0 rid := by
              intro heq
              rw [heq]
              refine ⟨stableProj room, ?_, h1, ?_, of_decide_eq_true h4⟩
              · rw [← hfr]
                rfl
              · cases hb : (A.contains i || W.contains i) with
                | false => rfl
                | true => exact absurd hb h3
            have hq : (rid = i ∧ schedFireCond cfg A W rooms0 rid) ↔ rid = i :=
              ⟨fun h => h.1, fun h => ⟨h, hCi h⟩⟩
            simp only [List.mem_append, List.mem_cons, List.not_mem_nil,
              or_false, or_and_right, hq]
            rw [or_assoc]
          · rw [if_neg h4, ih acc hst]
            have hPr : ¬(rid = i ∧ schedFireCond cfg A W rooms0 rid) := by
              rintro ⟨heq, p, hp, -, -, hge⟩
              rw [heq] at hp
              rw [hp] at hfr
              have hpe : stableProj room = p := Option.some.inj hfr
              rw [← hpe] at hge
              exact h4 (decide_eq_true hge)
            simp only [List.mem_cons, or_and_right]
            rw [or_iff_right hPr]

/-- C5 counterexample: room M is OCCUPIED, manually powered off, with a
5-degree temperature gap and empty queues.  The TimeManager pass correctly
publishes nothing for it, but the scheduler auto-restart pass still invokes
on_new_request for it (its fired list is exactly M), so the claimed iff —
which requires not manual_powered_off for a room to be auto-restarted — is
false as stated. -/
theorem c5_counterexample :
    (handleAutoRestartSched {} 0 demoManualState).2 = ["M"] ∧
    (findRoom "M" demoManualState.rooms).map (fun r => r.manual_powered_off) =
      some true ∧
    tmCheckAutoRestart ({} : Config).autoRestartThreshold []
      demoManualState.rooms = [] := by
  refine ⟨?_, rfl, rfl⟩
  have hna : needsAutoRestart
      { room_id := "M", status := RoomStatus.OCCUPIED, current_temp := 30,
        target_temp := 25, manual_powered_off := true } 1 = true := by
    unfold needsAutoRestart
    rw [decide_eq_true_eq]
    dsimp only
    rw [show (30 : ℚ) - 25 = 5 by norm_num,
      abs_of_nonneg (by norm_num : (0 : ℚ) ≤ 5)]
    norm_num
  simp [handleAutoRestartSched, demoManualState, findRoom, hna]

/-- C5 amended: during the per-tick auto-restart pass,
TimeManager._check_auto_restart publishes AUTO_RESTART_NEEDED for a room iff
it is not VACANT, not manually powered off, has no active SERVICE or WAIT
timer, and its temperature gap reaches the threshold (the trigger also fires
at exact equality with the threshold); the scheduler's own
_handle_auto_restart pass, however, invokes on_new_request for a room iff
the same conditions hold on the scheduler's queues but WITHOUT the
manual_powered_off condition. -/
theorem c5_auto_restart_stage_conditions (cfg : Config) (threshold : ℚ)
    (timers : List TimerState) (rooms : List Room) (now : ℚ) (sys : SysState)
    (rid : String) (hnd : (sys.rooms.map fun r => r.room_id).Nodup) :
    (rid ∈ tmCheckAutoRestart threshold timers rooms ↔
      ∃ room ∈ rooms, room.room_id = rid ∧
        room.status ≠ RoomStatus.VACANT ∧
        room.manual_powered_off = false ∧
        ((tmActiveServiceRooms timers).contains rid ||
          (tmActiveWaitRooms timers).contains rid) = false ∧
        needsAutoRestart room threshold = true) ∧
    (rid ∈ (handleAutoRestartSched cfg now sys).2 ↔
      ∃ room ∈ sys.rooms, room.room_id = rid ∧
        room.status ≠ RoomStatus.VACANT ∧
        (((sys.services.map fun s => s.room_id).contains rid ||
          (sys.waits.map fun s => s.room_id).contains rid) = false) ∧
        needsAutoRestart room cfg.autoRestartThreshold = true) ∧
    (∀ room : Room, room.current_temp - room.target_temp = threshold →
      needsAutoRestart room threshold = true) := by
  refine ⟨?_, ?_, ?_⟩
  · unfold tmCheckAutoRestart
    dsimp only
    rw [tmAutoRestartFold_mem threshold (tmActiveServiceRooms timers)
      (tmActiveWaitRooms timers) rooms [] rid]
    simp only [List.not_mem_nil, false_or]
  · unfold handleAutoRestartSched
    dsimp only
    rw [schedAutoRestartFold_mem cfg now (sys.services.map fun s => s.room_id)
      (sys.waits.map fun s => s.room_id) sys.rooms
      (sys.rooms.map fun r => r.room_id) (sys, []) rid rfl]
    simp only [List.not_mem_nil, false_or]
    constructor
    · rintro ⟨hmem, p, hp, hstat, hcont, hge⟩
      cases hfr : findRoom rid sys.rooms with
      | none =>
        rw [hfr] at hp
        exact Option.noConfusion hp
      | some room1 =>
        rw [hfr] at hp
        have hpe : stableProj room1 = p := Option.some.inj hp
        subst hpe
        refine ⟨room1, ?_, findRoom_some_id rid sys.rooms room1 hfr, hstat,
          hcont, ?_⟩
        · unfold findRoom at hfr
          exact List.mem_of_find?_eq_some hfr
        · exact decide_eq_true hge
    · rintro ⟨room, hmem, hid, hstat, hcont, hneeds⟩
      have hfr : findRoom rid sys.rooms = some room :=
        findRoom_of_mem_nodup sys.rooms room rid hnd hmem hid
      refine ⟨?_, stableProj room, ?_, hstat, hcont, ?_⟩
      · rw [← hid]
        exact List.mem_map_of_mem _ hmem
      · rw [hfr]
        rfl
      · exact of_decide_eq_true hneeds
  · intro room h
    unfold needsAutoRestart
    rw [decide_eq_true_eq, h]
    exact le_abs_self threshold

theorem c5_auto_restart_stage_conditions_witness :
    ("M" ∈ tmCheckAutoRestart 1 [] demoManualState.rooms ↔
      ∃ room ∈ demoManualState.rooms, room.room_id = "M" ∧
        room.status ≠ RoomStatus.VACANT ∧
        room.manual_powered_off = false ∧
        ((tmActiveServiceRooms []).contains "M" ||
          (tmActiveWaitRooms []).contains "M") = false ∧
        needsAutoRestart room 1 = true) ∧
    ("M" ∈ (handleAutoRestartSched {} 0 demoManualState).2 ↔
      ∃ room ∈ demoManualState.rooms, room.room_id = "M" ∧
        room.status ≠ RoomStatus.VACANT ∧
        (((demoManualState.services.map fun s => s.room_id).contains "M" ||
          (demoManualState.waits.map fun s => s.room_id).contains "M") = false) ∧
        needsAutoRestart room ({} : Config).autoRestartThreshold = true) ∧
    (∀ room : Room, room.current_temp - room.target_temp = 1 →
      needsAutoRestart room 1 = true) :=
  c5_auto_restart_stage_conditions {} 1 [] demoManualState.rooms 0
    demoManualState "M" (by decide)

end HotelAC
